import Mathlib

/-!
Verification development for the archaeological-report extraction pipeline
(text segmenter, response normalizer, artifact merger, field mapper / triple
generator, code-range expander, image linker, template schema resolver and
the extraction workflow orchestrator).

Python source files are shallowly embedded: dict-shaped records become
association lists over a `PyVal` scalar type, machine floats used only as
confidence scores become rationals, the per-process string hash and the LLM
call become explicit function parameters, and the imperative loops become
folds / structural recursions that mirror the source line by line.
-/

namespace Pipeline

/-- Model of the Python scalar values that flow through the extraction
records: `None`, `str`, `int`, `float` (modelled as a rational; the pipeline
only adds and compares tenths, where float and rational arithmetic agree)
and `bool`. -/
inductive PyVal where
  | vNone : PyVal
  | vStr (s : String) : PyVal
  | vInt (n : Int) : PyVal
  | vFloat (q : ℚ) : PyVal
  | vBool (b : Bool) : PyVal
deriving DecidableEq, Repr

/-- Numeric view used by Python `==`, `max` and `isinstance(v, (int, float))`:
`bool` is a subclass of `int` in Python, so `True` counts as `1`. -/
def PyVal.toQ? : PyVal → Option ℚ
  | .vInt n => some (n : ℚ)
  | .vFloat q => some q
  | .vBool b => some (if b then 1 else 0)
  | _ => none

/-- Python `==` on the scalar values: numeric values compare by value across
`int` / `float` / `bool`, strings compare as strings, `None` only equals
`None`, and cross-kind comparisons are `False`. -/
def pyEq (a b : PyVal) : Bool :=
  match a.toQ?, b.toQ? with
  | some x, some y => x == y
  | none, none =>
    match a, b with
    | .vStr s, .vStr t => s == t
    | .vNone, .vNone => true
    | _, _ => false
  | _, _ => false

/-- Python truthiness of the scalar values (`if not value: ...`). -/
def pyTruthy : PyVal → Bool
  | .vNone => false
  | .vStr s => s ≠ ""
  | .vInt n => n ≠ 0
  | .vFloat q => q ≠ 0
  | .vBool b => b

/-- Python `str(v)` for the scalar values (floats are printed as rationals;
the claims only ever stringify strings). -/
def pyStr : PyVal → String
  | .vNone => "None"
  | .vStr s => s
  | .vInt n => toString n
  | .vFloat q => toString q
  | .vBool b => if b then "True" else "False"

/-- Predicate for `v is None`. -/
def pyIsNone : PyVal → Bool
  | .vNone => true
  | _ => false

/-- A Python dict-shaped record: an association list with unique keys in
insertion order. -/
abbrev Rec := List (String × PyVal)

/-- Model of `record.get(key)`: first binding of the key, absent keys give
`None` (Python's `.get` default). -/
def recGetV (r : Rec) (k : String) : PyVal :=
  ((r.find? (fun p => p.1 == k)).map (·.2)).getD .vNone

/-- Model of `record.get(key, default)`: the default applies only when the
key is absent, an explicit `None` binding is returned as `None`. -/
def recGetD (r : Rec) (k : String) (d : PyVal) : PyVal :=
  ((r.find? (fun p => p.1 == k)).map (·.2)).getD d

/-!
String helpers. The Python string methods are re-implemented over `List Char`
by structural recursion so that every definition reduces inside the kernel.
Whitespace is modelled as the ASCII whitespace characters plus the ideographic
space U+3000 (the subset of Python's Unicode whitespace that occurs in the
reports).
-/

/-- Whitespace test used for `str.strip`, `\s` and `str.split()`. -/
def isWsChar (c : Char) : Bool :=
  c == ' ' || c == '\t' || c == '\n' || c == '\r' ||
    c.toNat == 11 || c.toNat == 12 || c.toNat == 0x3000

/-- Strip leading and trailing whitespace from a character list. -/
def stripChars (l : List Char) : List Char :=
  ((l.dropWhile isWsChar).reverse.dropWhile isWsChar).reverse

/-- Python `str.strip()`. -/
def pyStrip (s : String) : String := String.mk (stripChars s.data)

/-- ASCII lower-casing (Python `str.lower()`; the pipeline only lower-cases
ASCII letters, Chinese characters have no case). -/
def charLower (c : Char) : Char :=
  if 65 ≤ c.toNat && c.toNat ≤ 90 then Char.ofNat (c.toNat + 32) else c

/-- Python `str.lower()`. -/
def strLower (s : String) : String := String.mk (s.data.map charLower)

/-- Boolean prefix test on character lists. -/
def isPrefixChars : List Char → List Char → Bool
  | [], _ => true
  | _ :: _, [] => false
  | a :: as, b :: bs => a == b && isPrefixChars as bs

/-- Boolean substring test on character lists (Python `needle in hay`). -/
def containsSub (hay needle : List Char) : Bool :=
  match hay with
  | [] => isPrefixChars needle []
  | _ :: rest => isPrefixChars needle hay || containsSub rest needle

/-- Python `needle in hay` on strings. -/
def strContains (hay needle : String) : Bool := containsSub hay.data needle.data

/-- Split a character list at every occurrence of a separator character
(Python `str.split(sep)` for a one-character separator: no collapsing of
empty parts). -/
def splitOnCharList (sep : Char) : List Char → List (List Char)
  | [] => [[]]
  | c :: rest =>
    if c == sep then [] :: splitOnCharList sep rest
    else
      match splitOnCharList sep rest with
      | [] => [[c]]
      | h :: t => (c :: h) :: t

/-- Worker for `splitOnSub`, fuelled so that it reduces in the kernel; each
step consumes at least one character, so `l.length + 1` fuel suffices. -/
def splitOnSubGo (sep : List Char) : Nat → List Char → List Char → List (List Char) →
    List (List Char)
  | 0, acc, l, out => out ++ [acc.reverse ++ l]
  | _ + 1, acc, [], out => out ++ [acc.reverse]
  | fuel + 1, acc, c :: rest, out =>
    if isPrefixChars sep (c :: rest) then
      splitOnSubGo sep fuel [] ((c :: rest).drop sep.length) (out ++ [acc.reverse])
    else splitOnSubGo sep fuel (c :: acc) rest out

/-- Python `str.split(sep)` for a non-empty multi-character separator. -/
def splitOnSub (sep : List Char) (l : List Char) : List (List Char) :=
  splitOnSubGo sep (l.length + 1) [] l []

/-- Digit test (Python `\d` restricted to ASCII digits, the only digits in
artifact codes). -/
def isDigitChar (c : Char) : Bool := 48 ≤ c.toNat && c.toNat ≤ 57

/-- Numeric value of a digit string (Python `int(...)` on a digit run). -/
def digitsToNat (l : List Char) : Nat :=
  l.foldl (fun acc c => acc * 10 + (c.toNat - 48)) 0

/-- Python dict lookup where later insertions overwrite earlier ones (also
the meaning of a dict literal with duplicate keys): the last matching entry
wins. -/
def dictLookupLast (entries : List (String × α)) (k : String) : Option α :=
  (entries.reverse.find? (fun e => e.1 == k)).map (·.2)

end Pipeline

namespace ArtifactMerger
/-!
Embedding of `src/artifact_merger.py` (`ArtifactMerger.merge_artifacts`,
`_merge_group`, `_merge_field_values`, `detect_conflicts`,
`_detect_group_conflicts`).

The Python code iterates over `all_fields`, a `set`, whose iteration order
is unspecified; the embedding fixes the canonical first-appearance order.
The claims checked here only inspect records through key lookup and the
conflict multiset, which are independent of that order.
-/

open Pipeline

/-- Insert a record into the group keyed by `k`, creating the group at the
end on first sight (models `defaultdict(list)` under an insertion-ordered
dict). -/
def addToGroup : List (PyVal × List Rec) → PyVal → Rec → List (PyVal × List Rec)
  | [], k, a => [(k, [a])]
  | (k', g) :: rest, k, a =>
    if pyEq k' k then (k', g ++ [a]) :: rest else (k', g) :: addToGroup rest k a

/-- Grouping loop shared by `merge_artifacts` and `detect_conflicts`:
records whose key value is falsy (absent, `None`, `""`, `0`) are dropped
from grouping. -/
def groupByKey (keyField : String) (l : List Rec) : List (PyVal × List Rec) :=
  l.foldl (fun acc a =>
    let k := recGetV a keyField
    if pyTruthy k then addToGroup acc k a else acc) []

/-- Union of the groups' keys in first-appearance order (canonical order for
the Python `set` of field names). -/
def unionKeys (g : List Rec) : List String :=
  ((g.map (fun a => a.map Prod.fst)).flatten).foldl
    (fun acc k => if acc.contains k then acc else acc ++ [k]) []

/-- Order-preserving deduplication with Python `==` (`if v not in unique_values`). -/
def dedupPy (vs : List PyVal) : List PyVal :=
  vs.foldl (fun acc v => if acc.any (fun u => pyEq u v) then acc else acc ++ [v]) []

/-- Test for `isinstance(v, (int, float))`; Python booleans are ints. -/
def isNumericVal : PyVal → Bool
  | .vInt _ => true
  | .vFloat _ => true
  | .vBool _ => true
  | _ => false

/-- Test for `isinstance(v, str)`. -/
def isStrVal : PyVal → Bool
  | .vStr _ => true
  | _ => false

/-- Python `max(vs)` over numeric values: keeps the first of equal maxima. -/
def maxNumeric (vs : List PyVal) : PyVal :=
  match vs with
  | [] => .vNone
  | v :: rest => rest.foldl (fun acc w =>
      if (PyVal.toQ? w).getD 0 > (PyVal.toQ? acc).getD 0 then w else acc) v

/-- Python `max(vs, key=len)` over strings: keeps the first of the longest. -/
def maxByLen (vs : List String) : String :=
  match vs with
  | [] => ""
  | v :: rest => rest.foldl (fun acc w => if w.length > acc.length then w else acc) v

/-- Keyword set marking descriptive fields whose string values are joined
rather than reduced to the longest. -/
def descriptiveKeywords : List String :=
  ["description", "features", "characteristics", "特征", "描述", "说明"]

/-- Check `any(keyword in field_name.lower() for keyword in ...)`. -/
def isDescriptiveField (fieldName : String) : Bool :=
  descriptiveKeywords.any (fun kw => strContains (strLower fieldName) kw)

/-- Embedding of `ArtifactMerger._merge_field_values`. -/
def mergeFieldValues (fieldName : String) (values : List PyVal) : PyVal :=
  let uv := dedupPy values
  match uv with
  | [v] => v
  | _ =>
    if uv.all isNumericVal then maxNumeric uv
    else if uv.all isStrVal then
      if isDescriptiveField fieldName then
        .vStr (String.intercalate " | " (uv.map pyStr))
      else
        .vStr (maxByLen (uv.map pyStr))
    else
      .vStr (String.intercalate " | " (uv.map pyStr))

/-- Embedding of `ArtifactMerger._merge_group`. -/
def mergeGroup (g : List Rec) : Rec :=
  (unionKeys g).map (fun f =>
    let values := (g.map (fun a => recGetV a f)).filter (fun v => ¬ pyIsNone v)
    (f, match values with
        | [] => PyVal.vNone
        | [v] => v
        | vs => mergeFieldValues f vs))

/-- Embedding of `ArtifactMerger.merge_artifacts`. -/
def merge_artifacts (keyField : String) (l : List Rec) : List Rec :=
  (groupByKey keyField l).map (fun g =>
    match g.2 with
    | [a] => a
    | _ => mergeGroup g.2)

/-- One field-level conflict reported by `_detect_group_conflicts`. -/
structure FieldConflict where
  field : String
  values : List PyVal
  count : Nat
deriving DecidableEq, Repr

/-- One group-level conflict report from `detect_conflicts`. -/
structure ConflictReport where
  artifact_code : PyVal
  conflicts : List FieldConflict
deriving DecidableEq, Repr

/-- Order-preserving deduplication of strings, whose length models
`len(set(strs))`. -/
def dedupStr (vs : List String) : List String :=
  vs.foldl (fun acc v => if acc.contains v then acc else acc ++ [v]) []

/-- Embedding of `ArtifactMerger._detect_group_conflicts`. -/
def detectGroupConflicts (g : List Rec) : List FieldConflict :=
  (unionKeys g).filterMap (fun f =>
    let values := (g.map (fun a => recGetV a f)).filter (fun v => ¬ pyIsNone v)
    if values.length > 1 then
      if (dedupStr (values.map pyStr)).length > 1 then
        some ⟨f, values, values.length⟩
      else none
    else none)

/-- Embedding of `ArtifactMerger.detect_conflicts`. -/
def detect_conflicts (keyField : String) (l : List Rec) : List ConflictReport :=
  (groupByKey keyField l).filterMap (fun g =>
    if g.2.length > 1 then
      let gc := detectGroupConflicts g.2
      if gc ≠ [] then some ⟨g.1, gc⟩ else none
    else none)

end ArtifactMerger

namespace TripleGenerator
/-!
Embedding of `ExtractionWorkflow._generate_triples` (src/workflow.py): the
pure core that turns a record and the registered template mappings into
semantic triples. The `sys_template_mappings` rows fetched from the store
become an explicit list parameter; `NULL` columns become `none`.
-/

open Pipeline

/-- One row of `sys_template_mappings` as fetched by `_generate_triples`:
`(field_name_cn, field_name_en, id, cidoc_property)`. -/
structure TMapping where
  nameCn : Option String
  nameEn : Option String
  mid : Int
  prop : Option String
deriving DecidableEq, Repr

/-- Python truthiness of an optional string (`if name_cn:`). -/
def optStrTruthy : Option String → Bool
  | some s => s ≠ ""
  | none => false

/-- The local `clean_string`: `re.sub(r'\s+', '', str(s)).lower()`. -/
def cleanString (s : String) : String :=
  strLower (String.mk (s.data.filter (fun c => ¬ isWsChar c)))

/-- Insertion-ordered entries of the `map_lookup` dict: for each mapping row
first the cleaned Chinese name, then the cleaned English name, skipping falsy
names. -/
def tripleEntries (maps : List TMapping) : List (String × (Int × Option String)) :=
  maps.foldl (fun acc m =>
    let acc1 := if optStrTruthy m.nameCn then
        acc ++ [(cleanString (m.nameCn.getD ""), (m.mid, m.prop))]
      else acc
    if optStrTruthy m.nameEn then
      acc1 ++ [(cleanString (m.nameEn.getD ""), (m.mid, m.prop))]
    else acc1) []

/-- One emitted semantic triple. -/
structure Triple where
  artifact_type : String
  artifact_id : Int
  mapping_id : Int
  predicate : String
  object_value : String
  confidence : PyVal
deriving DecidableEq, Repr

/-- Embedding of the triple-building loop of `_generate_triples`:
`for key, value in data.items(): if not value: continue; ...` followed by the
lookup hit and the `if prop:` guard. -/
def generate_triples (atype : String) (aid : Int) (maps : List TMapping)
    (data : Rec) : List Triple :=
  data.foldl (fun acc kv =>
    if pyTruthy kv.2 then
      match dictLookupLast (tripleEntries maps) (cleanString kv.1) with
      | none => acc
      | some (mid, prop) =>
        if optStrTruthy prop then
          acc ++ [⟨atype, aid, mid, prop.getD "", pyStr kv.2,
                   recGetD data "extraction_confidence" (.vFloat 1)⟩]
        else acc
    else acc) []

/-- Specification-side predicate: a record field produces a triple exactly
when its value is truthy, its cleaned key hits the lookup, and the hit's
ontology relation is non-empty. -/
def tripleQualifies (maps : List TMapping) (kv : String × PyVal) : Bool :=
  pyTruthy kv.2 &&
    (match dictLookupLast (tripleEntries maps) (cleanString kv.1) with
     | some (_, prop) => optStrTruthy prop
     | none => false)

/-- Specification-side triple constructor for a qualifying field. -/
def mkTriple (atype : String) (aid : Int) (maps : List TMapping) (data : Rec)
    (kv : String × PyVal) : Triple :=
  match dictLookupLast (tripleEntries maps) (cleanString kv.1) with
  | some (mid, prop) =>
    ⟨atype, aid, mid, prop.getD "", pyStr kv.2,
     recGetD data "extraction_confidence" (.vFloat 1)⟩
  | none => ⟨atype, aid, 0, "", pyStr kv.2, .vNone⟩

end TripleGenerator

namespace TemplateAnalyzer
/-!
Embedding of `TemplateAnalyzer.to_db_field_name` (src/template_analyzer.py):
the storage-key derivation. The Python dict literal `mapping` becomes the
entry list below in source order; a dict literal with duplicate keys keeps
the last value, which `dictLookupLast` models. The per-process string hash
`abs(hash(name))` becomes an explicit parameter, because Python randomizes
the string-hash seed per process (PYTHONHASHSEED).
-/

open Pipeline

/-- The `mapping` dict literal of `to_db_field_name`, in source order,
duplicates included. -/
def fieldNameMapping : List (String × String) := [
  ("陶土种类", "clay_type"),
  ("陶土纯洁程度", "clay_purity"),
  ("陶土纯洁程度 ", "clay_purity"),
  ("陶土细腻程度", "clay_fineness"),
  ("陶土细腻程度 ", "clay_fineness"),
  ("掺杂物", "mixed_materials"),
  ("硬度", "hardness"),
  ("颜色", "color"),
  ("表面处理", "surface_treatment"),
  ("基本器型", "basic_shape"),
  ("器型部位特征", "shape_features"),
  ("器物组合", "vessel_combination"),
  ("基本尺寸", "dimensions"),
  ("器物功能", "function"),
  ("成型工艺", "forming_technique"),
  ("修整技术", "finishing_technique"),
  ("装饰手法", "decoration_method"),
  ("纹饰类型", "decoration_type"),
  ("烧成温度", "firing_temperature"),
  ("人工物品编号", "artifact_code"),
  ("制作活动", "production_activity"),
  ("制作者", "maker"),
  ("制作年代", "production_date"),
  ("制作地点", "production_location"),
  ("原始出土地点", "excavation_location"),
  ("发掘活动", "excavation_activity"),
  ("出土墓葬", "found_in_tomb"),
  ("保存状况", "preservation_status"),
  ("完整程度", "completeness"),
  ("高度", "height"), ("器高", "height"), ("通高", "height"),
  ("口径", "diameter"), ("直径", "diameter"), ("腹径", "diameter"), ("底径", "diameter"),
  ("厚度", "thickness"), ("壁厚", "thickness"), ("器壁厚度", "thickness"),
  ("量度信息", "measurements"),
  ("所在墓地", "location_site"),
  ("所在遗址", "location_site"),
  ("墓葬编号", "found_in_tomb"),
  ("层位", "location_layer"),
  ("层位信息", "location_layer"),
  ("其他单位", "location_unit"),
  ("灰坑编号", "location_unit"),
  ("出土区域", "ex_region"),
  ("出土单位", "ex_unit"),
  ("出土层位", "ex_layer"),
  ("人工物品编号", "artifact_code"),
  ("一级分类", "category_level1"),
  ("二级分类", "category_level2"),
  ("三级分类", "category_level3"),
  ("器型单元", "shape_unit"),
  ("形状描述", "shape_description"),
  ("整体形态描述", "overall_description"),
  ("纹饰单元", "decoration_unit"),
  ("纹饰单元(按图案题材分类)", "decoration_unit"),
  ("纹饰主题", "decoration_theme"),
  ("纹饰描述", "decoration_description"),
  ("工艺特征单元", "craft_unit"),
  ("工艺特征单元(按制作痕迹分类)", "craft_unit"),
  ("切割工艺", "cutting_technique"),
  ("钻孔工艺", "drilling_technique"),
  ("雕刻工艺", "carving_technique"),
  ("装饰工艺", "decoration_craft"),
  ("材质单元", "jade_type"),
  ("玉料类型", "jade_type"),
  ("玉料质地", "jade_quality"),
  ("玉料颜色", "jade_color"),
  ("透明度", "transparency"),
  ("沁色单元", "surface_condition"),
  ("量度信息", "measurements"),
  ("尺寸", "dimensions"),
  ("长度", "length"), ("长", "length"), ("通长", "length"),
  ("宽度", "width"), ("宽", "width"),
  ("厚度", "thickness"), ("厚", "thickness"),
  ("孔径", "hole_diameter"),
  ("重量", "weight"),
  ("器物功能", "function"),
  ("使用方式", "usage"),
  ("制作工艺", "production_technique"),
  ("制作年代", "production_period"),
  ("原始出土地点", "excavation_location"),
  ("出土墓葬", "found_in_tomb"),
  ("保存状况", "preservation_status"),
  ("完整程度", "completeness"),
  ("表面状况", "surface_condition"),
  ("出土区域", "ex_region"),
  ("出土单位", "ex_unit"),
  ("出土层位", "ex_layer"),
  ("遗址编号", "site_code"),
  ("遗址名称", "site_name"),
  ("遗址别名", "site_alias"),
  ("遗址类型", "site_type"),
  ("地理位置", "current_location"),
  ("现存地点", "current_location"),
  ("遗址位置", "current_location"),
  ("遗址当前位置", "current_location"),
  ("所在地", "current_location"),
  ("地理坐标", "geographic_coordinates"),
  ("位置地理数据", "geographic_coordinates"),
  ("遗址空间数据", "spatial_data"),
  ("海拔", "elevation"),
  ("遗址面积", "total_area"),
  ("总面积", "total_area"),
  ("发掘面积", "excavated_area"),
  ("文化属性", "culture_name"),
  ("所属文化", "culture_name"),
  ("所属年代", "absolute_dating"),
  ("绝对年代", "absolute_dating"),
  ("保护级别", "protection_level"),
  ("保存状况", "preservation_status"),
  ("自然环境", "description"),
  ("遗址描述", "description"),
  ("遗址内子区域", "site_sub_zone"),
  ("子区域编号或名称", "sub_zone_name"),
  ("子区域位置描述", "sub_zone_location"),
  ("子区域内具体单位", "sub_zone_unit"),
  ("所属子区域", "parent_sub_zone"),
  ("时期编号", "period_code"),
  ("时期名称", "period_name"),
  ("时期/期别", "period_name"),
  ("时期别名", "period_alias"),
  ("起始时间", "time_span_start"),
  ("结束时间", "time_span_end"),
  ("绝对年代", "absolute_dating"),
  ("相对年代", "relative_dating"),
  ("发展阶段", "development_stage"),
  ("阶段序列", "phase_sequence"),
  ("时期顺序", "phase_sequence"),
  ("时期特征", "characteristics"),
  ("代表性文物", "representative_artifacts"),
  ("历史背景朝代", "historical_era"),
  ("细分时期划分", "sub_period"),
  ("物理地层归属", "stratigraphic_layer")]

/-- Python `\w` restricted to the character classes that occur in template
field names: ASCII alphanumerics, underscore, and CJK unified ideographs. -/
def isWordChar (c : Char) : Bool :=
  (48 ≤ c.toNat && c.toNat ≤ 57) || (65 ≤ c.toNat && c.toNat ≤ 90) ||
    (97 ≤ c.toNat && c.toNat ≤ 122) || c == '_' ||
    (0x4E00 ≤ c.toNat && c.toNat ≤ 0x9FFF)

/-- The automatic slug rule of `to_db_field_name`:
`re.sub(r'[^\w\s]', '', name).strip().lower().replace(' ', '_')`. -/
def autoSlug (chineseName : String) : String :=
  let kept := chineseName.data.filter (fun c => isWordChar c || isWsChar c)
  let lowered := (stripChars kept).map charLower
  String.mk (lowered.map (fun c => if c == ' ' then '_' else c))

/-- Python `str.isdigit()` restricted to ASCII digits. -/
def pyIsDigit (s : String) : Bool := !s.data.isEmpty && s.data.all isDigitChar

/-- Embedding of `TemplateAnalyzer.to_db_field_name`. The parameter `h`
models `abs(hash(·))`, the per-process salted Python string hash. -/
def to_db_field_name (h : String → Nat) (chineseName : String) : String :=
  match dictLookupLast fieldNameMapping chineseName with
  | some v => v
  | none =>
    let fn := autoSlug chineseName
    if fn == "" || pyIsDigit fn then
      "field_" ++ toString (h chineseName % 10000)
    else fn

end TemplateAnalyzer

namespace ImageLinker
/-!
Embedding of `src/image_linker.py` (`ImageLinker.link_artifact_to_images`
with its five candidate strategies, `_merge_and_deduplicate` and
`_determine_image_role`) together with the two `ImageManager` helpers the
linker calls (`_extract_hash_from_item`, `extract_image_caption`,
`_extract_nearby_text`).

The indexed content list becomes `List CItem`; a `None` or missing
`content_list` behaves like the empty list (every loop over it is empty,
matching the `if not ...: return []` guards). The artifact dict is split
into its scalar fields (a `Rec`) and the one list-valued field the linker
reads, `image_references`; `none` models a missing key. Confidences are
rationals.
-/

open Pipeline

/-- One indexed content-list item. `imageHashF`, `hashF`, `idF`, `pathF`
model the string-valued `image_hash` / `hash` / `id` / `path` keys tried by
`_extract_hash_from_item` (a missing or non-string value is `none`). -/
structure CItem where
  typ : String
  text : String
  imageHashF : Option String
  hashF : Option String
  idF : Option String
  pathF : Option String
  page_idx : Option Int
  bbox : List Int
deriving DecidableEq, Repr

/-- Characters after the last path separator (`os.path.basename`). -/
def basenameChars (l : List Char) : List Char :=
  l.foldl (fun acc c => if c == '/' || c == '\\' then [] else acc ++ [c]) []

/-- Stem of `os.path.splitext`: cut at the last dot unless every character
before it is a dot. -/
def splitextStem (l : List Char) : List Char :=
  match ((List.range l.length).filter (fun i => l.get? i == some '.')).getLast? with
  | none => l
  | some i => if (l.take i).all (fun c => c == '.') then l else l.take i

/-- Embedding of `ImageManager._extract_hash_from_item`: first present
string field among `image_hash`, `hash`, `id`, `path`; path-like values are
reduced to their extension-free basename. -/
def extractHashFromItem (item : CItem) : Option String :=
  let strip := fun (v : String) =>
    if v.data.contains '/' || v.data.contains '\\' then
      String.mk (splitextStem (basenameChars v.data))
    else v
  match item.imageHashF with
  | some v => some (strip v)
  | none =>
    match item.hashF with
    | some v => some (strip v)
    | none =>
      match item.idF with
      | some v => some (strip v)
      | none =>
        match item.pathF with
        | some v => some (strip v)
        | none => none

/-- Embedding of `ImageManager._extract_nearby_text`: texts of the truthy
text items within `distance` of the item's first occurrence, joined with a
space and truncated to 500 characters. -/
def extractNearbyText (cl : List CItem) (item : CItem) (distance : Nat) : String :=
  match cl.indexOf? item with
  | none => ""
  | some idx =>
    let lo := idx - distance
    let hi := min cl.length (idx + distance + 1)
    let texts := (List.range' lo (hi - lo)).filterMap (fun i =>
      match cl.get? i with
      | some it => if it.typ == "text" && it.text ≠ "" then some it.text else none
      | none => none)
    String.mk ((String.intercalate " " texts).data.take 500)

/-- Embedding of `ImageManager.extract_image_caption`: locate the first
image item with the given extracted hash, return the first of the next four
items that is a text item whose stripped text starts with `图` / `Fig` /
`图版`, falling back to the nearby text. -/
def extractImageCaption (cl : List CItem) (h : Option String) : String :=
  match cl.enum.findSome? (fun p =>
      if p.2.typ == "image" && extractHashFromItem p.2 == h then some p else none) with
  | none => ""
  | some p =>
    let i := p.1
    let js := List.range' (i + 1) (min (i + 5) cl.length - (i + 1))
    match js.findSome? (fun j =>
      match cl.get? j with
      | some it =>
        if it.typ == "text" then
          let t := pyStrip it.text
          if t ≠ "" && (isPrefixChars "图".data t.data ||
                        isPrefixChars "Fig".data t.data ||
                        isPrefixChars "图版".data t.data) then
            some t
          else none
        else none
      | none => none) with
    | some t => t
    | none => extractNearbyText cl p.2 2

/-- One candidate image inside the linker, before role assignment;
`confidence` and `match_method` are set by the strategy that produced it
(Python mutates the dicts returned by `_find_nearby_images`). Confidences
are stored exactly, in hundredths (the source's floats 0.4 … 0.98 and
`0.6 + 0.1 * k` are all multiples of 0.01, and this recoding preserves both
their values and their ordering). -/
structure IImage where
  image_hash : Option String
  page_idx : Option Int
  bbox : List Int
  caption : String
  distance_from_text : Option Nat
  confidence : Option Nat
  match_method : Option String
deriving DecidableEq, Repr

/-- Embedding of `ImageLinker._find_nearby_images`: image items with a
truthy extracted hash within `distance` positions of the text item. -/
def findNearbyImages (cl : List CItem) (textIndex : Nat) (distance : Nat) :
    List IImage :=
  let start := textIndex - distance
  let stop := min cl.length (textIndex + distance + 1)
  (List.range' start (stop - start)).filterMap (fun i =>
    match cl.get? i with
    | some item =>
      if item.typ == "image" then
        match extractHashFromItem item with
        | some h =>
          if h ≠ "" then
            some ⟨some h, item.page_idx, item.bbox, extractImageCaption cl (some h),
                  some (if i ≤ textIndex then textIndex - i else i - textIndex),
                  none, none⟩
          else none
        | none => none
      else none
    | none => none)

/-- The artifact as the linker sees it: its scalar fields plus the optional
list-valued `image_references` field (`none` = key absent). -/
structure LArtifact where
  fields : Rec
  image_references : Option (List PyVal)
deriving DecidableEq, Repr

/-- Embedding of `ImageLinker._normalize_code`: drop whitespace, `-` and
`_`, then map the full-width colon to `:`. -/
def normalizeCode (s : String) : String :=
  String.mk ((s.data.filter (fun c => ¬ (isWsChar c || c == '-' || c == '_'))).map
    (fun c => if c == '：' then ':' else c))

/-- Embedding of `ImageLinker._find_images_by_artifact_code`
(confidence 0.9, i.e. 90 hundredths, method `artifact_code`). -/
def findImagesByArtifactCode (cl : List CItem) (code : String) : List IImage :=
  (cl.enum.map (fun p =>
    if p.2.typ == "text" &&
       (strContains p.2.text code ||
        strContains (normalizeCode p.2.text) (normalizeCode code)) then
      (findNearbyImages cl p.1 5).map (fun im =>
        { im with confidence := some 90, match_method := some "artifact_code" })
    else [])).flatten

/-- The descriptive key fields mined for keywords by `_extract_keywords`. -/
def linkerKeyFields : List String :=
  ["subtype", "category_level1", "category_level2",
   "jade_type", "clay_type", "shape_unit", "decoration_unit"]

/-- Embedding of `ImageLinker._extract_keywords`: string values of length
more than one from the key fields, then the truthy artifact code. -/
def extractKeywords (a : LArtifact) : List String :=
  linkerKeyFields.filterMap (fun f =>
    match recGetV a.fields f with
    | .vStr s => if s.length > 1 then some s else none
    | _ => none) ++
  (if pyTruthy (recGetD a.fields "artifact_code" (.vStr "")) then
    [pyStr (recGetD a.fields "artifact_code" (.vStr ""))]
  else [])

/-- Embedding of `ImageLinker._find_images_by_text_content`
(confidence `0.6 + 0.1 * match_count`, at least two keyword matches,
method `text_content`). -/
def findImagesByTextContent (cl : List CItem) (a : LArtifact) : List IImage :=
  if (extractKeywords a).isEmpty then []
  else
    (cl.enum.map (fun p =>
      if p.2.typ == "text" then
        if 2 ≤ (extractKeywords a).countP (fun kw => strContains p.2.text kw) then
          (findNearbyImages cl p.1 3).map (fun im =>
            { im with
              confidence := some (60 +
                (extractKeywords a).countP (fun kw => strContains p.2.text kw) * 10),
              match_method := some "text_content" })
        else []
      else [])).flatten

/-- Embedding of `ImageLinker._extract_tomb_code`: `re.match(r'(M\d+)', ...)`. -/
def extractTombCode (code : String) : Option String :=
  match code.data with
  | 'M' :: rest =>
    let ds := rest.takeWhile isDigitChar
    if ds.isEmpty then none else some (String.mk ('M' :: ds))
  | _ => none

/-- Embedding of `ImageLinker._find_images_by_tomb`
(confidence 0.4, method `tomb_context`). -/
def findImagesByTomb (cl : List CItem) (code : String) : List IImage :=
  match extractTombCode code with
  | none => []
  | some tomb =>
    (cl.enum.map (fun p =>
      if p.2.typ == "text" && strContains p.2.text tomb &&
         ["墓", "墓葬", "M"].any (fun kw => strContains p.2.text kw) then
        (findNearbyImages cl p.1 10).map (fun im =>
          { im with confidence := some 40, match_method := some "tomb_context" })
      else [])).flatten

/-- Characters accepted by the figure-number class `[一二三四五六七八九十\d]`. -/
def figNumChar (c : Char) : Bool :=
  isDigitChar c || c ∈ ['一', '二', '三', '四', '五', '六', '七', '八', '九', '十']

/-- Alternatives of `(图|图版|Fig\.?|Figure)` in the order the regex engine
tries them (the optional dot is tried greedily). -/
def figRefCandidates : List String := ["图", "图版", "Fig.", "Fig", "Figure"]

/-- Try the figure-reference pattern at the head of `l`: a candidate prefix,
optional whitespace, then a non-empty run of figure-number characters.
Returns the captured prefix, the number and the remaining characters. -/
def tryFigMatchAt (l : List Char) : Option (String × String × List Char) :=
  figRefCandidates.findSome? (fun cand =>
    if isPrefixChars cand.data l then
      let rest := (l.drop cand.data.length).dropWhile isWsChar
      let num := rest.takeWhile figNumChar
      if num.isEmpty then none
      else some (cand, String.mk num, rest.drop num.length)
    else none)

/-- Non-overlapping left-to-right matches of the figure-reference pattern
(`re.findall`); each step consumes at least one character, so fuel
`l.length + 1` suffices. -/
def findAllFigRefs : Nat → List Char → List (String × String)
  | 0, _ => []
  | _ + 1, [] => []
  | fuel + 1, c :: rest =>
    match tryFigMatchAt (c :: rest) with
    | some (pfx, num, after) => (pfx, num) :: findAllFigRefs fuel after
    | none => findAllFigRefs fuel rest

/-- The `found_refs` set of `_find_images_by_explicit_reference`: for every
match in a text item containing the artifact code, both `prefix+number` and
the bare number (as a deduplicated list; the set is only consumed through
an order-insensitive disjunction). -/
def collectFoundRefs (cl : List CItem) (code : String) : List String :=
  cl.foldl (fun acc item =>
    if item.typ == "text" && strContains item.text code then
      (findAllFigRefs (item.text.data.length + 1) item.text.data).foldl
        (fun acc2 pr =>
          let acc3 := if acc2.contains (pr.1 ++ pr.2) then acc2
                      else acc2 ++ [pr.1 ++ pr.2]
          if acc3.contains pr.2 then acc3 else acc3 ++ [pr.2]) acc
    else acc) []

/-- The per-image match test shared by the explicit-reference and
LLM-reference strategies: the reference occurs in the truthy file name, or
the truthy caption starts with it or contains it surrounded by spaces. -/
def refMatchesImage (refs : List String) (h : Option String) (caption : String) :
    Bool :=
  refs.any (fun ref =>
    (match h with
     | some hs => hs != "" && strContains hs ref
     | none => false) ||
    (caption ≠ "" && (isPrefixChars ref.data caption.data ||
                      strContains caption (" " ++ ref ++ " "))))

/-- Embedding of `ImageLinker._find_images_by_explicit_reference`
(confidence 0.95, method `explicit_reference`). -/
def findImagesByExplicitReference (cl : List CItem) (code : String) : List IImage :=
  if (collectFoundRefs cl code).isEmpty then []
  else
    cl.filterMap (fun item =>
      if item.typ == "image" then
        if refMatchesImage (collectFoundRefs cl code) (extractHashFromItem item)
            (extractImageCaption cl (extractHashFromItem item)) then
          some ⟨extractHashFromItem item, item.page_idx, item.bbox,
                extractImageCaption cl (extractHashFromItem item), none,
                some 95, some "explicit_reference"⟩
        else none
      else none)

/-- Embedding of `ImageLinker._find_images_by_llm_references`
(confidence 0.98, method `llm_reference`): one pass over the content list
per stripped truthy reference. -/
def findImagesByLLMReferences (cl : List CItem) (a : LArtifact) : List IImage :=
  match a.image_references with
  | none => []
  | some refs =>
    if refs.isEmpty then []
    else
      (refs.map (fun ref =>
        if pyStrip (pyStr ref) == "" then []
        else
          cl.filterMap (fun item =>
            if item.typ == "image" then
              if refMatchesImage [pyStrip (pyStr ref)] (extractHashFromItem item)
                  (extractImageCaption cl (extractHashFromItem item)) then
                some ⟨extractHashFromItem item, item.page_idx, item.bbox,
                      extractImageCaption cl (extractHashFromItem item), none,
                      some 98, some "llm_reference"⟩
              else none
            else none))).flatten

/-- Sort key order of `_merge_and_deduplicate`:
ascending `(-confidence, distance_from_text)`. -/
def imageSortLt (a b : IImage) : Bool :=
  let ca := a.confidence.getD 0
  let cb := b.confidence.getD 0
  let da := a.distance_from_text.getD 999
  let db := b.distance_from_text.getD 999
  cb < ca || (ca == cb && da < db)

/-- Stable insertion preserving the original order of equal keys. -/
def insStable (x : IImage) : List IImage → List IImage
  | [] => [x]
  | y :: ys => if imageSortLt x y then x :: y :: ys else y :: insStable x ys

/-- Stable sort modelling Python's `list.sort`. -/
def stableSortImages (l : List IImage) : List IImage :=
  l.foldl (fun acc x => insStable x acc) []

/-- Embedding of `ImageLinker._merge_and_deduplicate`: concatenate, keep the
first occurrence of each truthy hash, sort by descending confidence then
ascending distance. -/
def mergeAndDeduplicate (lists : List (List IImage)) : List IImage :=
  stableSortImages
    (lists.flatten.foldl
      (fun (st : List IImage × List String) img =>
        match img.image_hash with
        | some h => if h != "" && !(st.2.contains h) then (st.1 ++ [img], st.2 ++ [h]) else st
        | none => st) ([], [])).1

/-- Embedding of `ImageLinker._determine_image_role` (the `artifact_code`
argument is unused in the source as well). -/
def determineImageRole (img : IImage) (_code : String) (index : Nat) : String :=
  let caption := strLower img.caption
  if strContains caption "照片" || strContains caption "photo" then "photo"
  else if strContains caption "图" || strContains caption "线图" ||
          strContains caption "drawing" then "drawing"
  else if strContains caption "示意" || strContains caption "diagram" then "diagram"
  else if strContains caption "位置" || strContains caption "context" ||
          strContains caption "墓" then "context"
  else
    let mm := img.match_method.getD ""
    if mm == "llm_reference" || mm == "explicit_reference" then "photo"
    else if mm == "artifact_code" then (if index == 0 then "photo" else "drawing")
    else if mm == "tomb_context" then "context"
    else if index == 0 then "photo" else "related"

/-- One linked image as returned by `link_artifact_to_images` (the source
also carries `image_path`, always absent from the strategy dicts, hence
`""`); the confidence is again in hundredths. -/
structure LinkedImage where
  image_hash : Option String
  image_path : String
  image_role : String
  confidence : Nat
  display_order : Nat
  page_idx : Option Int
  caption : String
deriving DecidableEq, Repr

/-- Embedding of `ImageLinker.link_artifact_to_images` (the `artifact_type`
argument is unused in the source as well). -/
def link_artifact_to_images (cl : List CItem) (a : LArtifact) (_atype : String) :
    List LinkedImage :=
  if ¬ pyTruthy (recGetD a.fields "artifact_code" (.vStr "")) then []
  else
    (mergeAndDeduplicate
      [findImagesByLLMReferences cl a,
       findImagesByExplicitReference cl (pyStr (recGetD a.fields "artifact_code" (.vStr ""))),
       findImagesByArtifactCode cl (pyStr (recGetD a.fields "artifact_code" (.vStr ""))),
       findImagesByTextContent cl a,
       findImagesByTomb cl (pyStr (recGetD a.fields "artifact_code" (.vStr "")))]).enum.map
      (fun p =>
        ⟨p.2.image_hash, "",
         determineImageRole p.2 (pyStr (recGetD a.fields "artifact_code" (.vStr ""))) p.1,
         p.2.confidence.getD 50, p.1, p.2.page_idx, p.2.caption⟩)

/-- Specification-side envelope of the linker confidences (in hundredths):
every returned score lies in `[0.4, 1.4]`, and a score above `1` can only be
the keyword-proximity formula `0.6 + 0.1 * m` for a match count
`m ∈ [5, 8]`. -/
def confWithinLinkerRange (c : Nat) : Prop :=
  40 ≤ c ∧ c ≤ 140 ∧ (c ≤ 100 ∨ ∃ m : Nat, 5 ≤ m ∧ m ≤ 8 ∧ c = 60 + m * 10)

end ImageLinker

namespace RangeExpander
/-!
Embedding of `ExtractionWorkflow._expand_artifact_ranges` (src/workflow.py):
rule-first expansion of `~` ranges in artifact codes with an LLM fallback
for complex separators. The LLM-assisted helper `_expand_code_with_llm`
(an external network call that already returns a — possibly empty — list of
code strings, with `[]` on any failure) becomes the explicit `oracle`
parameter.
-/

open Pipeline

/-- The code string of a record:
`artifact.get('artifact_code')`, `''` if `None`, else `str(code).strip()`. -/
def getCode (artifact : Rec) : String :=
  match recGetV artifact "artifact_code" with
  | .vNone => ""
  | v => pyStrip (pyStr v)

/-- Python dict assignment `new_artifact['artifact_code'] = c` on a copy:
update in place, append if absent. -/
def setCode : Rec → String → Rec
  | [], c => [("artifact_code", .vStr c)]
  | kv :: rest, c =>
    if kv.1 == "artifact_code" then ("artifact_code", .vStr c) :: rest
    else kv :: setCode rest c

/-- The strict rule-layer parse: split on `~` into exactly two parts, strip
both, read the maximal trailing digit run of each
(`re.search(r'^(.*?)(\d+)$', start)` and `re.search(r'(\d+)$', end)`);
returns the shared text before the left digit run plus both numbers. -/
def parseTildeRange (code : String) : Option (String × Nat × Nat) :=
  match splitOnCharList '~' code.data with
  | [l, r] =>
    if ((stripChars l).reverse.takeWhile isDigitChar).isEmpty ||
       ((stripChars r).reverse.takeWhile isDigitChar).isEmpty then none
    else
      some (String.mk ((stripChars l).take
              ((stripChars l).length -
               ((stripChars l).reverse.takeWhile isDigitChar).length)),
            digitsToNat ((stripChars l).reverse.takeWhile isDigitChar).reverse,
            digitsToNat ((stripChars r).reverse.takeWhile isDigitChar).reverse)
  | _ => none

/-- The complex-separator set that triggers the LLM fallback. -/
def complexIndicators : List String := ["、", ",", "，", "和", "至", "&"]

/-- Rule layer applied to one record: `some variants` when the `~` range is
accepted (`start < end` and span `< 100`), `none` otherwise. -/
def ruleExpand (artifact : Rec) (code : String) : Option (List Rec) :=
  if code.data.contains '~' then
    match parseTildeRange code with
    | some r =>
      if r.2.1 < r.2.2 && r.2.2 - r.2.1 < 100 then
        some ((List.range' r.2.1 (r.2.2 - r.2.1 + 1)).map (fun i =>
          setCode artifact (r.1 ++ toString i)))
      else none
    | none => none
  else none

/-- Contribution of one record to `_expand_artifact_ranges`: rule layer,
then the LLM fallback when the code has a complex separator or an
unresolved `~`, keeping the record unchanged when both yield nothing. -/
def expandOne (oracle : String → List String) (artifact : Rec) : List Rec :=
  match ruleExpand artifact (getCode artifact) with
  | some l => l
  | none =>
    if complexIndicators.any (fun sep => strContains (getCode artifact) sep) ||
       (getCode artifact).data.contains '~' then
      match oracle (getCode artifact) with
      | [] => [artifact]
      | c :: cs => (c :: cs).map (fun cd => setCode artifact cd)
    else [artifact]

/-- Embedding of `ExtractionWorkflow._expand_artifact_ranges`. -/
def expand_artifact_ranges (oracle : String → List String)
    (artifacts : List Rec) : List Rec :=
  artifacts.foldl (fun acc a => acc ++ expandOne oracle a) []

end RangeExpander

namespace TextSplitter
/-!
Embedding of `ExtractionWorkflow._split_large_text` (src/workflow.py): the
chunker that slices a long text, preferring a newline, then the sentence
period `。`, before a hard cut, and then rewinds by `overlap` before the
next chunk. The `while` loop becomes a fuelled recursion; each iteration
advances `start` by at least one (`start = max(start + 1, actual_end -
overlap)`), so `text.length + 1` fuel always finishes the loop.
-/

open Pipeline

/-- Python `text.rfind(c, a, b)`: the highest index in `[a, b)` holding `c`
(`none` models the `-1` result). -/
def rfindChar (l : List Char) (c : Char) (a b : Nat) : Option Nat :=
  ((List.range b).filter (fun i => a ≤ i && l.get? i == some c)).getLast?

/-- The cut position `actual_end` for a chunk beginning at `start`: the
newline search window is `[max(start, end - overlap), end)` with
`end = start + chunk_size`; a found newline or period is included in the
chunk (`+ 1`), otherwise the chunk is hard-cut at `end`. -/
def chunkCutEnd (text : List Char) (chunkSize overlap start : Nat) : Nat :=
  match rfindChar text '\n' (max start (start + chunkSize - overlap))
      (start + chunkSize) with
  | some i => i + 1
  | none =>
    match rfindChar text '。' (max start (start + chunkSize - overlap))
        (start + chunkSize) with
    | some i => i + 1
    | none => start + chunkSize

/-- The chunking loop of `_split_large_text`. -/
def splitGo (text : List Char) (chunkSize overlap : Nat) : Nat → Nat → List (List Char)
  | 0, _ => []
  | fuel + 1, start =>
    if text.length ≤ start then []
    else if text.length ≤ start + chunkSize then [text.drop start]
    else
      (text.drop start).take (chunkCutEnd text chunkSize overlap start - start) ::
        splitGo text chunkSize overlap fuel
          (max (start + 1) (chunkCutEnd text chunkSize overlap start - overlap))

/-- Embedding of `ExtractionWorkflow._split_large_text`. -/
def split_large_text (text : List Char) (chunkSize overlap : Nat) : List (List Char) :=
  if text.length ≤ chunkSize then [text]
  else splitGo text chunkSize overlap (text.length + 1) 0

end TextSplitter

namespace ContentExtractor
/-!
Embedding of `split_by_tomb` (src/content_extractor.py): the tomb segmenter.
A line is a heading when one of the three anchored regular expressions
matches its start; the regex alternations are modelled by the same
first-match-that-completes semantics the backtracking engine realizes
(documented at each helper). The result dict is an insertion-ordered
association list; assigning an existing key overwrites in place.
-/

open Pipeline

/-- Alternatives of `(一|二|三|四|五|六|七|八|九|十|十一|十二)` before `号墓`,
in regex order; with the mandatory `号墓` tail, the backtracking engine
selects the first alternative that the tail completes after. -/
def cnTombAlternatives : List String :=
  ["一", "二", "三", "四", "五", "六", "七", "八", "九", "十", "十一", "十二"]

/-- Match `(一|…|十二)号墓` at the head of `cs`, returning the captured
numeral word. -/
def matchCnTomb (cs : List Char) : Option String :=
  cnTombAlternatives.find? (fun w => isPrefixChars (w.data ++ ['号', '墓']) cs)

/-- The character class `[一二三四五六七八九十]`. -/
def cnDigitChars : List Char := ['一', '二', '三', '四', '五', '六', '七', '八', '九', '十']

/-- Pattern 1 after the hashes: a literal space, an optional
`第[一二三四五六七八九十]+节\s+` (greedy: the numeral run is maximal and
must be followed by `节`, since `节` is not in the class), then the numeral
tomb word; when the optional group fails the engine retries without it. -/
def p1Match (cs : List Char) : Option String :=
  match cs with
  | ' ' :: rest =>
    match rest with
    | '第' :: r2 =>
      (if (r2.takeWhile (fun c => c ∈ cnDigitChars)).isEmpty then none
       else
         match r2.drop (r2.takeWhile (fun c => c ∈ cnDigitChars)).length with
         | '节' :: r3 =>
           if (r3.takeWhile isWsChar).isEmpty then none
           else matchCnTomb (r3.drop (r3.takeWhile isWsChar).length)
         | _ => none).orElse (fun _ => matchCnTomb rest)
    | _ => matchCnTomb rest
  | _ => none

/-- Pattern 2 after the hashes: `\s*M(\d+)`, returning the rendered name
`M` + digits (`f"M{match.group(1)}"`). -/
def p2Match (cs : List Char) : Option String :=
  match cs.dropWhile isWsChar with
  | 'M' :: r =>
    if (r.takeWhile isDigitChar).isEmpty then none
    else some (String.mk ('M' :: r.takeWhile isDigitChar))
  | _ => none

/-- Pattern 3 after the hashes: `\s*(一|…|十二)号墓`. -/
def p3Match (cs : List Char) : Option String :=
  matchCnTomb (cs.dropWhile isWsChar)

/-- Heading classification of one line: one to three leading `#` (four or
more leave a `#` in front of every alternative, so nothing matches), then
the three patterns in order; patterns 1 and 3 render `<numeral>号墓`,
pattern 2 renders `M<digits>` (the source keys the name on whether the
matched pattern contains `M`). -/
def headingName (line : List Char) : Option String :=
  if (line.takeWhile (fun c => c == '#')).length < 1 ||
     3 < (line.takeWhile (fun c => c == '#')).length then none
  else
    match p1Match (line.drop (line.takeWhile (fun c => c == '#')).length) with
    | some w => some (w ++ "号墓")
    | none =>
      match p2Match (line.drop (line.takeWhile (fun c => c == '#')).length) with
      | some nm => some nm
      | none =>
        match p3Match (line.drop (line.takeWhile (fun c => c == '#')).length) with
        | some w => some (w ++ "号墓")
        | none => none

/-- Python `'\n'.join(lines)` over character lists. -/
def intercalateNl : List (List Char) → List Char
  | [] => []
  | [l] => l
  | l :: rest => l ++ '\n' :: intercalateNl rest

/-- Insertion-ordered dict assignment: overwrite in place, append when new. -/
def upsert (res : List (String × String)) (k v : String) : List (String × String) :=
  match res with
  | [] => [(k, v)]
  | kv :: rest => if kv.1 == k then (k, v) :: rest else kv :: upsert rest k v

/-- The line loop of `split_by_tomb`: close the open segment at each
heading, append other lines to the open segment, save the final segment
only when its buffer is non-empty. -/
def splitLoop : List (List Char) → Option String → List (List Char) →
    List (String × String) → List (String × String)
  | [], cur, content, res =>
    match cur with
    | some t =>
      if content.isEmpty then res
      else upsert res t (String.mk (stripChars (intercalateNl content)))
    | none => res
  | line :: ls, cur, content, res =>
    match headingName line with
    | some name =>
      match cur with
      | some t =>
        splitLoop ls (some name) []
          (upsert res t (String.mk (stripChars (intercalateNl content))))
      | none => splitLoop ls (some name) content res
    | none =>
      match cur with
      | some _ => splitLoop ls cur (content ++ [line]) res
      | none => splitLoop ls cur content res

/-- Embedding of `split_by_tomb`. -/
def split_by_tomb (fullText : String) : List (String × String) :=
  splitLoop (splitOnCharList '\n' fullText.data) none [] []

/-- Specification-side: all non-whitespace characters, in order — the claim
compares texts up to whitespace, and any such comparison refines equality
after erasing every whitespace character. -/
def eraseWs (l : List Char) : List Char := l.filter (fun c => !(isWsChar c))

/-- Specification-side: the normalized names of the heading lines, in
order. -/
def headingNames (lines : List (List Char)) : List String :=
  lines.filterMap headingName

/-- Specification-side: concatenation of the segment texts in order of
appearance. -/
def segConcatChars (res : List (String × String)) : List Char :=
  (res.map (fun p => p.2.data)).flatten

/-- Specification-side: concatenation of the body lines — the non-heading
lines at or after the first heading (`inSeg` records whether a heading has
been seen); this is the original text minus the pre-heading preamble and
minus the heading lines themselves. -/
def tailBody : List (List Char) → Bool → List Char
  | [], _ => []
  | l :: ls, inSeg =>
    match headingName l with
    | some _ => tailBody ls true
    | none => if inSeg then l ++ tailBody ls inSeg else tailBody ls inSeg

end ContentExtractor

namespace ResponseNormalizer
/-!
Embedding of `extract_json_from_response` and `repair_truncated_json`
(src/automated_extractor.py), together with a model of `json.loads`
(strict mode, as the source calls it): code-fence extraction, direct parse,
bracket repair and the balanced-substring scan, in the source's order, with
every strategy failure swallowed and only total exhaustion producing the
error. Numbers are kept as their source lexeme (the pipeline never inspects
numeric values, and this avoids any loss of information: the value is a
function of the lexeme); a `\u` escape becomes the character with that code
point (lone surrogates, which Lean's `Char` cannot hold, map to the
replacement behaviour of `Char.ofNat`).
-/

open Pipeline

/-- A parsed JSON value (`json.loads` result). -/
inductive JVal where
  | jnull : JVal
  | jbool (b : Bool) : JVal
  | jnum (lexeme : String) : JVal
  | jstr (s : String) : JVal
  | jarr (items : List JVal) : JVal
  | jobj (fields : List (String × JVal)) : JVal

/-- JSON structural whitespace (`json` accepts only these four). -/
def isJsonWs (c : Char) : Bool :=
  c == ' ' || c == '\t' || c == '\n' || c == '\r'

/-- Skip JSON whitespace. -/
def skipJsonWs (l : List Char) : List Char := l.dropWhile isJsonWs

/-- Hexadecimal digit value. -/
def hexVal (c : Char) : Option Nat :=
  if 48 ≤ c.toNat && c.toNat ≤ 57 then some (c.toNat - 48)
  else if 97 ≤ c.toNat && c.toNat ≤ 102 then some (c.toNat - 87)
  else if 65 ≤ c.toNat && c.toNat ≤ 70 then some (c.toNat - 55)
  else none

/-- String body parser, after the opening quote: strict mode rejects raw
control characters; the escapes are exactly JSON's. -/
def parseJStringGo : Nat → List Char → List Char → Option (String × List Char)
  | 0, _, _ => none
  | fuel + 1, acc, l =>
    match l with
    | [] => none
    | '"' :: rest => some (String.mk acc.reverse, rest)
    | '\\' :: rest =>
      match rest with
      | [] => none
      | 'u' :: h1 :: h2 :: h3 :: h4 :: r2 =>
        match hexVal h1, hexVal h2, hexVal h3, hexVal h4 with
        | some a, some b, some c, some d =>
          parseJStringGo fuel (Char.ofNat (((a * 16 + b) * 16 + c) * 16 + d) :: acc) r2
        | _, _, _, _ => none
      | e :: r2 =>
        if e == '"' then parseJStringGo fuel ('"' :: acc) r2
        else if e == '\\' then parseJStringGo fuel ('\\' :: acc) r2
        else if e == '/' then parseJStringGo fuel ('/' :: acc) r2
        else if e == 'b' then parseJStringGo fuel (Char.ofNat 8 :: acc) r2
        else if e == 'f' then parseJStringGo fuel (Char.ofNat 12 :: acc) r2
        else if e == 'n' then parseJStringGo fuel ('\n' :: acc) r2
        else if e == 'r' then parseJStringGo fuel ('\r' :: acc) r2
        else if e == 't' then parseJStringGo fuel ('\t' :: acc) r2
        else none
    | c :: rest =>
      if c.toNat < 32 then none else parseJStringGo fuel (c :: acc) rest

/-- Unsigned integer part: `0` or a non-zero digit followed by digits. -/
def parseUIntPart : List Char → Option (List Char × List Char)
  | '0' :: r => some (['0'], r)
  | c :: r =>
    if 49 ≤ c.toNat && c.toNat ≤ 57 then
      some (c :: r.takeWhile isDigitChar, r.dropWhile isDigitChar)
    else none
  | [] => none

/-- Signed integer part of a JSON number. -/
def parseIntPart : List Char → Option (List Char × List Char)
  | '-' :: r =>
    match parseUIntPart r with
    | some (d, r2) => some ('-' :: d, r2)
    | none => none
  | r => parseUIntPart r

/-- Optional fraction `(\.\d+)?`. -/
def parseFracPart : List Char → List Char × List Char
  | '.' :: r =>
    if (match r with | d :: _ => isDigitChar d | [] => false) then
      ('.' :: r.takeWhile isDigitChar, r.dropWhile isDigitChar)
    else ([], '.' :: r)
  | r => ([], r)

/-- Optional exponent `([eE][-+]?\d+)?`. -/
def parseExpPart : List Char → List Char × List Char
  | e :: r =>
    if e == 'e' || e == 'E' then
      match r with
      | s :: r2 =>
        if s == '+' || s == '-' then
          (match r2 with
           | d :: _ =>
             if isDigitChar d then
               ([e, s] ++ r2.takeWhile isDigitChar, r2.dropWhile isDigitChar)
             else ([], e :: s :: r2)
           | [] => ([], e :: s :: r2))
        else if isDigitChar s then
          ([e] ++ r.takeWhile isDigitChar, r.dropWhile isDigitChar)
        else ([], e :: r)
      | [] => ([], [e])
    else ([], e :: r)
  | [] => ([], [])

/-- Number lexeme: `(-?(?:0|[1-9]\d*))(\.\d+)?([eE][-+]?\d+)?`. -/
def parseNumberLex (l : List Char) : Option (String × List Char) :=
  match parseIntPart l with
  | none => none
  | some (ip, r2) =>
    match parseFracPart r2 with
    | (fp, r4) =>
      match parseExpPart r4 with
      | (ep, r6) => some (String.mk (ip ++ fp ++ ep), r6)

mutual

/-- Value parser of the model of `json.loads` (fuelled; each recursive call
consumes fuel, and the callers always hand it enough). -/
def parseJVal : Nat → List Char → Option (JVal × List Char)
  | 0, _ => none
  | fuel + 1, l =>
    match l with
    | [] => none
    | '"' :: rest =>
      (parseJStringGo fuel [] rest).map (fun p => (JVal.jstr p.1, p.2))
    | '{' :: rest => parseJObj fuel (skipJsonWs rest)
    | '[' :: rest => parseJArr fuel (skipJsonWs rest)
    | l' =>
      if isPrefixChars "null".data l' then some (JVal.jnull, l'.drop 4)
      else if isPrefixChars "true".data l' then some (JVal.jbool true, l'.drop 4)
      else if isPrefixChars "false".data l' then some (JVal.jbool false, l'.drop 5)
      else if isPrefixChars "NaN".data l' then some (JVal.jnum "NaN", l'.drop 3)
      else if isPrefixChars "Infinity".data l' then some (JVal.jnum "Infinity", l'.drop 8)
      else if isPrefixChars "-Infinity".data l' then
        some (JVal.jnum "-Infinity", l'.drop 9)
      else (parseNumberLex l').map (fun p => (JVal.jnum p.1, p.2))

/-- Object parser, after `{` and leading whitespace. -/
def parseJObj : Nat → List Char → Option (JVal × List Char)
  | 0, _ => none
  | fuel + 1, l =>
    match l with
    | '}' :: rest => some (JVal.jobj [], rest)
    | _ => parseJObjItems fuel l []

/-- Object member list; expects a quoted key at the head. -/
def parseJObjItems : Nat → List Char → List (String × JVal) →
    Option (JVal × List Char)
  | 0, _, _ => none
  | fuel + 1, l, acc =>
    match l with
    | '"' :: rest =>
      match parseJStringGo fuel [] rest with
      | none => none
      | some (key, r2) =>
        match skipJsonWs r2 with
        | ':' :: r3 =>
          match parseJVal fuel (skipJsonWs r3) with
          | none => none
          | some (v, r4) =>
            match skipJsonWs r4 with
            | ',' :: r5 => parseJObjItems fuel (skipJsonWs r5) (acc ++ [(key, v)])
            | '}' :: r5 => some (JVal.jobj (acc ++ [(key, v)]), r5)
            | _ => none
        | _ => none
    | _ => none

/-- Array parser, after `[` and leading whitespace. -/
def parseJArr : Nat → List Char → Option (JVal × List Char)
  | 0, _ => none
  | fuel + 1, l =>
    match l with
    | ']' :: rest => some (JVal.jarr [], rest)
    | _ => parseJArrItems fuel l []

/-- Array element list. -/
def parseJArrItems : Nat → List Char → List JVal → Option (JVal × List Char)
  | 0, _, _ => none
  | fuel + 1, l, acc =>
    match parseJVal fuel l with
    | none => none
    | some (v, r2) =>
      match skipJsonWs r2 with
      | ',' :: r3 => parseJArrItems fuel (skipJsonWs r3) (acc ++ [v])
      | ']' :: r3 => some (JVal.jarr (acc ++ [v]), r3)
      | _ => none

end

/-- Model of `json.loads`: leading and trailing whitespace allowed, anything
else after the value is an error. -/
def json_loads (s : String) : Option JVal :=
  match parseJVal (2 * s.data.length + 4) (skipJsonWs s.data) with
  | some (v, rest) => if (skipJsonWs rest).isEmpty then some v else none
  | none => none

/-- Embedding of `repair_truncated_json`: strip, close an odd unterminated
string with one quote, then append the unmatched closers in LIFO order
(the bracket scan is deliberately string-unaware, as in the source). -/
def repair_truncated_json (s : String) : String :=
  String.mk
    ((fun t =>
      (fun t2 =>
        t2 ++ t2.foldl (fun stack c =>
          if c == '{' then '}' :: stack
          else if c == '[' then ']' :: stack
          else if c == '}' || c == ']' then
            (match stack with
             | top :: rest => if top == c then rest else stack
             | [] => stack)
          else stack) [])
        (if t.count '"' % 2 ≠ 0 && t.contains '"' then t ++ ['"'] else t))
    (stripChars s.data))

/-- The code-fence strategy: odd-indexed blocks of `text.split("```")`,
each stripped, a leading `json` tag dropped, parsed directly and then with
repair. -/
def tryFencedBlocks (text : List Char) : Option JVal :=
  ((splitOnSub "```".data text).enum.filterMap (fun p =>
    if p.1 % 2 == 1 then some (stripChars p.2) else none)).findSome?
    (fun block =>
      (fun b2 =>
        match json_loads (String.mk b2) with
        | some v => some v
        | none => json_loads (repair_truncated_json (String.mk b2)))
      (if isPrefixChars "json".data block then stripChars (block.drop 4) else block))

/-- The balanced-substring scan from `start_idx`: track string and escape
state, try `json.loads` on every substring that closes the first bracket,
and report the final bracket balance. -/
def scanBalanced (sc ec : Char) (full : List Char) (startIdx : Nat) :
    Nat → Nat → Int → Bool → Bool → Option JVal × Int
  | 0, _, bal, _, _ => (none, bal)
  | fuel + 1, i, bal, inS, esc =>
    match full.get? i with
    | none => (none, bal)
    | some c =>
      if esc then scanBalanced sc ec full startIdx fuel (i + 1) bal inS false
      else if c == '\\' then scanBalanced sc ec full startIdx fuel (i + 1) bal inS true
      else if c == '"' then scanBalanced sc ec full startIdx fuel (i + 1) bal (!inS) false
      else if !inS && c == sc then
        scanBalanced sc ec full startIdx fuel (i + 1) (bal + 1) inS false
      else if !inS && c == ec then
        if bal - 1 == 0 then
          match json_loads (String.mk ((full.drop startIdx).take (i + 1 - startIdx))) with
          | some v => (some v, bal - 1)
          | none => scanBalanced sc ec full startIdx fuel (i + 1) (bal - 1) inS false
        else scanBalanced sc ec full startIdx fuel (i + 1) (bal - 1) inS false
      else scanBalanced sc ec full startIdx fuel (i + 1) bal inS false

/-- One marker attempt of strategy 3: scan for a balanced close of the
first `sc`; on no parsed candidate and a still-positive balance, repair the
suffix and parse it. -/
def tryMarker (sc ec : Char) (text : List Char) : Option JVal :=
  match text.findIdx? (fun c => c == sc) with
  | none => none
  | some startIdx =>
    match scanBalanced sc ec text startIdx (text.length + 1) startIdx 0 false false with
    | (some v, _) => some v
    | (none, bal) =>
      if bal > 0 then
        json_loads (repair_truncated_json (String.mk (text.drop startIdx)))
      else none

/-- Embedding of `extract_json_from_response`. -/
def extract_json_from_response (responseText : String) : Except String JVal :=
  match
    (if containsSub (stripChars responseText.data) "```".data then
      tryFencedBlocks (stripChars responseText.data)
    else none) with
  | some v => .ok v
  | none =>
    match json_loads (String.mk (stripChars responseText.data)) with
    | some v => .ok v
    | none =>
      match
        (if repair_truncated_json (String.mk (stripChars responseText.data))
            ≠ String.mk (stripChars responseText.data) then
          json_loads (repair_truncated_json (String.mk (stripChars responseText.data)))
        else none) with
      | some v => .ok v
      | none =>
        match (stripChars responseText.data).findIdx? (fun c => c == '['),
              (stripChars responseText.data).findIdx? (fun c => c == '{') with
        | none, none => .error "无法从响应中提取有效的JSON。未找到 [ 或 \x7b。"
        | fb, fbr =>
          match
            (if (match fb, fbr with
                 | some bi, some ri => Nat.blt bi ri
                 | some _, none => true
                 | none, _ => false) then
              match tryMarker '[' ']' (stripChars responseText.data) with
              | some v => some v
              | none => tryMarker '{' '}' (stripChars responseText.data)
            else
              match tryMarker '{' '}' (stripChars responseText.data) with
              | some v => some v
              | none => tryMarker '[' ']' (stripChars responseText.data)) with
          | some v => .ok v
          | none => .error "无法从响应中提取有效的JSON。"

end ResponseNormalizer

namespace WorkflowChunk
/-!
Embedding of the chunk-level error handling of
`ExtractionWorkflow._extract_artifacts` (src/workflow.py, the
`try/except` around one LLM call): on any parse failure the chunk logs an
ERROR, writes the raw response to the failed-responses recovery log —
guarded by `if 'response' in locals() and response:` — and continues with
the next chunk. The model takes the already-received response text.
-/

open Pipeline ResponseNormalizer

/-- One recovery-log file (`failed_<task>_<ts>_<tomb>_<chunk>.txt`): the
header fields the source writes, plus the full raw response. -/
structure RecoveryEntry where
  taskId : String
  artifactType : String
  contextName : String
  errorMsg : String
  rawResponse : String
deriving DecidableEq, Repr

/-- Observable outcome of one chunk extraction. -/
structure ChunkResult where
  raised : Bool
  parsed : Option JVal
  errorLogs : List String
  recovery : List RecoveryEntry

/-- The chunk step: parse the response; on failure, log ERROR, write the
recovery entry when the response is truthy, and continue (never re-raise). -/
def extract_chunk_step (taskId atype tombName : String) (chunkIdx : Nat)
    (response : String) : ChunkResult :=
  match extract_json_from_response response with
  | .ok v => ⟨false, some v, [], []⟩
  | .error e =>
    ⟨false, none,
     [tombName ++ " (片段" ++ toString (chunkIdx + 1) ++ ") 抽取失败: " ++ e],
     if response ≠ "" then [⟨taskId, atype, tombName, e, response⟩] else []⟩

end WorkflowChunk

namespace ExtractionWorkflowModel
/-!
Embedding of the cancellation/failure handling of
`ExtractionWorkflow.execute_full_extraction` (src/workflow.py).  The task
row and its log table are the observable state; `_check_cancellation`
(lines 48-53) polls the externally writable status before each major step
and raises a generic `Exception("任务已由用户手动中止")` after logging a
WARNING; the `except` block (lines 222-229) catches every exception, logs
ERROR `抽取失败: ...`, overwrites the status with `failed`, logs the
traceback detail as a second ERROR, and re-raises.  Major steps are taken
abstractly (`Step`); the external GUI abort is a step that writes status
`aborted`, exactly as `gui/db_helper.py` does through the shared database.
-/

/-- The observable task state: the status column and the append-only log
table (level, message). -/
structure TaskDB where
  status : String
  logs : List (String × String)
deriving DecidableEq, Repr

/-- `db.add_log(task_id, level, msg)`: append one log row. -/
def add_log (level msg : String) (db : TaskDB) : TaskDB :=
  ⟨db.status, db.logs ++ [(level, msg)]⟩

/-- `db.update_task_status(task_id, st)`. -/
def update_task_status (st : String) (db : TaskDB) : TaskDB :=
  ⟨st, db.logs⟩

/-- `_check_cancellation` (workflow.py 48-53): on externally-set status
`aborted`, log a WARNING and raise `Exception("任务已由用户手动中止")`;
the raised state travels with the exception since the log write already
happened. -/
def check_cancellation (db : TaskDB) : Except (String × TaskDB) TaskDB :=
  if db.status == "aborted" then
    .error ("任务已由用户手动中止",
      add_log "WARNING" "检测到中止信号，正在停止任务..." db)
  else .ok db

/-- One major step of the try block: transforms the task state and may
raise with a message. -/
def Step : Type := TaskDB → Except (String × TaskDB) TaskDB

/-- The body of the try block after `update_task_status 'running'`: a
`_check_cancellation` checkpoint precedes every major step, as in
workflow.py lines 94, 99, 111, 118, 183, 191, 201. -/
def runPhases : List Step → TaskDB → Except (String × TaskDB) TaskDB
  | [], db => .ok db
  | s :: rest, db =>
    match check_cancellation db with
    | .error e => .error e
    | .ok db1 =>
      match s db1 with
      | .error e => .error e
      | .ok db2 => runPhases rest db2

/-- Outcome of `execute_full_extraction`: final task state plus the
re-raised exception message, if any. -/
structure RunResult where
  db : TaskDB
  raised : Option String
deriving DecidableEq, Repr

/-- `execute_full_extraction` (workflow.py 55-229): log INFO, set status
`running`, run the checkpointed phases; on success set `completed` and log
INFO; on any exception log ERROR `抽取失败: <msg>`, set status `failed`,
log the traceback detail as ERROR, and re-raise.  `tb` stands for the
formatted traceback text (`traceback.format_exc()[:500]`). -/
def execute_full_extraction (steps : List Step) (tb : String) (db0 : TaskDB) :
    RunResult :=
  match runPhases steps
      (update_task_status "running" (add_log "INFO" "开始抽取流程" db0)) with
  | .ok db2 =>
    ⟨add_log "INFO" "抽取流程完成" (update_task_status "completed" db2), none⟩
  | .error (msg, db2) =>
    ⟨add_log "ERROR" ("错误详情: " ++ tb)
      (update_task_status "failed"
        (add_log "ERROR" ("抽取失败: " ++ msg) db2)), some msg⟩

end ExtractionWorkflowModel

/-!
## Theorems

Each claim of the specification is settled below; supporting lemmas come
first, claim theorems carry the claim id in their doc comment.
-/

open Pipeline ArtifactMerger in
/-- C4: on `[{"artifact_code":"M12:1","color":"红"},
{"artifact_code":"M12:1","color":"红褐"}]`, `detect_conflicts` reports
exactly one conflict, on field `color` with 2 values, and `merge_artifacts`
returns a single record whose `color` is the longer string `"红褐"` (and
whose code is unchanged): `color` matches no descriptive keyword, so the
longest-string policy applies. -/
theorem merge_conflict_scenario_c4 :
    detect_conflicts "artifact_code"
        [[("artifact_code", .vStr "M12:1"), ("color", .vStr "红")],
         [("artifact_code", .vStr "M12:1"), ("color", .vStr "红褐")]]
      = [⟨.vStr "M12:1", [⟨"color", [.vStr "红", .vStr "红褐"], 2⟩]⟩] ∧
    (merge_artifacts "artifact_code"
        [[("artifact_code", .vStr "M12:1"), ("color", .vStr "红")],
         [("artifact_code", .vStr "M12:1"), ("color", .vStr "红褐")]]).length = 1 ∧
    ∀ m ∈ merge_artifacts "artifact_code"
        [[("artifact_code", .vStr "M12:1"), ("color", .vStr "红")],
         [("artifact_code", .vStr "M12:1"), ("color", .vStr "红褐")]],
      recGetV m "color" = .vStr "红褐" ∧ recGetV m "artifact_code" = .vStr "M12:1" := by
  exact ⟨by decide, by decide, by decide⟩

namespace TripleGenerator

open Pipeline

/-- Fold lemma: the triple-building loop of `_generate_triples` appends, in
record order, exactly one triple per qualifying field. -/
theorem foldl_generate (atype : String) (aid : Int) (maps : List TMapping)
    (data : Rec) :
    ∀ (l : Rec) (acc : List Triple),
      l.foldl (fun acc kv =>
        if pyTruthy kv.2 then
          match dictLookupLast (tripleEntries maps) (cleanString kv.1) with
          | none => acc
          | some (mid, prop) =>
            if optStrTruthy prop then
              acc ++ [⟨atype, aid, mid, prop.getD "", pyStr kv.2,
                       recGetD data "extraction_confidence" (.vFloat 1)⟩]
            else acc
        else acc) acc
      = acc ++ (l.filter (tripleQualifies maps)).map (mkTriple atype aid maps data) := by
  intro l
  induction l with
  | nil => intro acc; simp
  | cons kv rest ih =>
    intro acc
    rw [List.foldl_cons, List.filter_cons]
    by_cases ht : pyTruthy kv.2 = true
    · rw [if_pos ht]
      cases hl : dictLookupLast (tripleEntries maps) (cleanString kv.1) with
      | none =>
        have hq : tripleQualifies maps kv = false := by
          simp [tripleQualifies, hl, ht]
        simp only [hl, hq, Bool.false_eq_true, if_false]
        exact ih acc
      | some p =>
        obtain ⟨mid, prop⟩ := p
        by_cases hp : optStrTruthy prop = true
        · have hq : tripleQualifies maps kv = true := by
            simp [tripleQualifies, hl, ht, hp]
          have hmk : mkTriple atype aid maps data kv
              = ⟨atype, aid, mid, prop.getD "", pyStr kv.2,
                 recGetD data "extraction_confidence" (.vFloat 1)⟩ := by
            simp [mkTriple, hl]
          simp only [hl, hq, if_true, if_pos hp]
          rw [ih]
          simp [hmk]
        · have hq : tripleQualifies maps kv = false := by
            simp [tripleQualifies, hl, ht, hp]
          simp only [hl, hq, Bool.false_eq_true, if_false, if_neg hp]
          exact ih acc
    · rw [if_neg ht]
      have hq : tripleQualifies maps kv = false := by
        simp [tripleQualifies]
        intro h
        exact absurd h ht
      simp only [hq, Bool.false_eq_true, if_false]
      exact ih acc

end TripleGenerator

open Pipeline TripleGenerator in
/-- C7 (amended): `generate_triples` emits exactly one semantic triple, in
record order, for every field of the record whose value is truthy (non-null
and not `0`, `""` or `False`), whose whitespace-stripped lowercased key
matches a registered display name or storage key, and whose ontology
relation is non-empty; all other fields — including non-null fields whose
value is `0` or the empty string — produce no triple. -/
theorem generate_triples_one_per_truthy_field_c7 (atype : String) (aid : Int)
    (maps : List TMapping) (data : Rec) :
    generate_triples atype aid maps data
      = (data.filter (tripleQualifies maps)).map (mkTriple atype aid maps data) := by
  unfold generate_triples
  exact foldl_generate atype aid maps data data []

open Pipeline TripleGenerator in
/-- C7 counterexample: a field with numeric value `0` is non-null, its key
`颜色` hits the mapping lookup and the ontology relation `P43` is non-empty,
yet `generate_triples` emits no triple for it — `if not value: continue`
skips every falsy value, not only `null`. -/
theorem generate_triples_zero_value_counterexample_c7 :
    generate_triples "pottery" 1 [⟨some "颜色", some "color", 7, some "P43"⟩]
        [("颜色", .vInt 0)] = [] ∧
    pyIsNone (.vInt 0) = false ∧
    dictLookupLast (tripleEntries [⟨some "颜色", some "color", 7, some "P43"⟩])
        (cleanString "颜色")
      = some (7, some "P43") := by
  exact ⟨by decide, by decide, by decide⟩

open Pipeline TemplateAnalyzer in
/-- Supporting fact for C3: away from the hash fallback — when the name is in
the known-name table, or its slug is non-empty and not purely numeric — the
storage key does not depend on the per-process hash, so it is stable across
processes. -/
theorem to_db_field_name_stable_off_fallback (h₁ h₂ : String → Nat)
    (name : String)
    (hc : (dictLookupLast fieldNameMapping name).isSome ∨
          (autoSlug name ≠ "" ∧ pyIsDigit (autoSlug name) = false)) :
    to_db_field_name h₁ name = to_db_field_name h₂ name := by
  unfold to_db_field_name
  cases hm : dictLookupLast fieldNameMapping name with
  | some v => rfl
  | none =>
    rcases hc with hs | ⟨hne, hnd⟩
    · rw [hm] at hs; simp at hs
    · have : (autoSlug name == "" || pyIsDigit (autoSlug name)) = false := by
        simp [hnd]
        intro h
        exact absurd h hne
      simp [this]

open Pipeline TemplateAnalyzer in
/-- C3: the storage-key derivation is NOT deterministic across processes for
names that take the hash fallback. The name `"***"` is not in the known-name
table and its slug is empty, so the key is `field_(abs(hash("***")) % 10000)`;
Python's string hash is salted per process (PYTHONHASHSEED), modelled here by
the explicit hash parameter, and two processes whose hashes of `"***"` differ
(e.g. reduce to 0 and to 1 modulo 10000) produce different storage keys. -/
theorem to_db_field_name_process_dependent_c3 :
    dictLookupLast fieldNameMapping "***" = none ∧
    autoSlug "***" = "" ∧
    to_db_field_name (fun _ => 0) "***" = "field_0" ∧
    to_db_field_name (fun _ => 1) "***" = "field_1" ∧
    to_db_field_name (fun _ => 0) "***" ≠ to_db_field_name (fun _ => 1) "***" := by
  exact ⟨by decide, by decide, by decide, by decide, by decide⟩

open Pipeline ImageLinker in
/-- C10: when the artifact's `artifact_code` is missing (`.get` default
`""`), explicitly `None`, or the empty string, `link_artifact_to_images`
returns the empty list before any strategy runs. -/
theorem link_empty_code_returns_nothing_c10 (cl : List CItem) (a : LArtifact)
    (atype : String)
    (h : recGetD a.fields "artifact_code" (.vStr "") = .vStr "" ∨
         recGetD a.fields "artifact_code" (.vStr "") = .vNone) :
    link_artifact_to_images cl a atype = [] := by
  rcases h with h | h <;> simp [link_artifact_to_images, h, pyTruthy]

open Pipeline ImageLinker in
/-- Witness for C10: an artifact with a null code but a non-empty
`image_references` list, against a content list whose image caption starts
with the referenced `图一`, still links nothing. -/
theorem link_empty_code_returns_nothing_c10_witness :
    link_artifact_to_images
        [⟨"image", "", some "img1", none, none, none, some 1, []⟩,
         ⟨"text", "图一 陶器照片", none, none, none, none, some 1, []⟩]
        ⟨[("artifact_code", .vNone)], some [.vStr "图一"]⟩ "jade" = [] :=
  link_empty_code_returns_nothing_c10 _ _ _ (Or.inr (by decide))

open Pipeline ImageLinker in
/-- C9 counterexample: an artifact with five descriptive keyword fields all
occurring in one text item gets a keyword-proximity confidence of
`0.6 + 5 * 0.1 = 1.1 > 1` (110 > 100 in the hundredths model), so not every
returned confidence lies in `[0, 1]`. -/
theorem link_confidence_above_one_counterexample_c9 :
    (link_artifact_to_images
        [⟨"text", "AA BB CC DD EE", none, none, none, none, some 1, []⟩,
         ⟨"image", "", some "img1", none, none, none, some 1, []⟩]
        ⟨[("artifact_code", .vStr "M9:7"), ("subtype", .vStr "AA"),
          ("category_level1", .vStr "BB"), ("category_level2", .vStr "CC"),
          ("jade_type", .vStr "DD"), ("clay_type", .vStr "EE")], none⟩
        "jade").map (fun img => img.confidence) = [110] ∧
    ¬ ((110 : Nat) ≤ 100) := by
  exact ⟨by decide, by decide⟩


namespace ImageLinker

open Pipeline

/-- Stable insertion adds no elements beyond the inserted one. -/
theorem mem_insStable {x y : IImage} : ∀ {l : List IImage},
    x ∈ insStable y l → x = y ∨ x ∈ l := by
  intro l
  induction l with
  | nil =>
    intro h
    exact Or.inl (List.mem_singleton.mp (by simpa [insStable] using h))
  | cons z zs ih =>
    intro h
    rw [insStable] at h
    by_cases hc : imageSortLt y z = true
    · rw [if_pos hc] at h
      rcases List.mem_cons.mp h with h' | h'
      · exact Or.inl h'
      · exact Or.inr h'
    · rw [if_neg hc] at h
      rcases List.mem_cons.mp h with h' | h'
      · exact Or.inr (by simp [h'])
      · rcases ih h' with h'' | h''
        · exact Or.inl h''
        · exact Or.inr (List.mem_cons_of_mem _ h'')

/-- Sorting returns only elements of the input list. -/
theorem mem_stableSortImages {x : IImage} {l : List IImage}
    (h : x ∈ stableSortImages l) : x ∈ l := by
  unfold stableSortImages at h
  suffices haux : ∀ (l' : List IImage) (acc : List IImage),
      x ∈ l'.foldl (fun acc y => insStable y acc) acc → x ∈ acc ∨ x ∈ l' by
    rcases haux l [] h with h' | h'
    · cases h'
    · exact h'
  intro l'
  induction l' with
  | nil => intro acc h'; exact Or.inl h'
  | cons z zs ih =>
    intro acc h'
    rw [List.foldl_cons] at h'
    rcases ih (insStable z acc) h' with h'' | h''
    · rcases mem_insStable h'' with h3 | h3
      · exact Or.inr (by simp [h3])
      · exact Or.inl h3
    · exact Or.inr (by simp [h''])

/-- Deduplication returns only elements of the concatenated input. -/
theorem mem_mergeAndDeduplicate {x : IImage} {lists : List (List IImage)}
    (h : x ∈ mergeAndDeduplicate lists) : x ∈ lists.flatten := by
  unfold mergeAndDeduplicate at h
  have h1 := mem_stableSortImages h
  suffices haux : ∀ (l : List IImage) (st : List IImage × List String),
      x ∈ (l.foldl (fun (st : List IImage × List String) img =>
        match img.image_hash with
        | some hsh => if hsh != "" && !(st.2.contains hsh)
                      then (st.1 ++ [img], st.2 ++ [hsh]) else st
        | none => st) st).1 → x ∈ st.1 ∨ x ∈ l by
    rcases haux lists.flatten ([], []) h1 with h' | h'
    · cases h'
    · exact h'
  intro l
  induction l with
  | nil => intro st h'; exact Or.inl h'
  | cons z zs ih =>
    intro st h'
    rw [List.foldl_cons] at h'
    cases hz : z.image_hash with
    | none =>
      simp only [hz] at h'
      rcases ih st h' with h'' | h''
      · exact Or.inl h''
      · exact Or.inr (by simp [h''])
    | some hsh =>
      simp only [hz] at h'
      by_cases hcond : (hsh != "" && !(st.2.contains hsh)) = true
      · rw [if_pos hcond] at h'
        rcases ih _ h' with h'' | h''
        · have h3 : x ∈ st.1 ++ [z] := h''
          rcases List.mem_append.mp h3 with h4 | h4
          · exact Or.inl h4
          · exact Or.inr (by simp [List.mem_singleton.mp h4])
        · exact Or.inr (by simp [h''])
      · rw [if_neg hcond] at h'
        rcases ih _ h' with h'' | h''
        · exact Or.inl h''
        · exact Or.inr (by simp [h''])

/-- An enumerated pair's payload is a member of the underlying list. -/
theorem snd_mem_of_mem_enumFrom {p : Nat × α} :
    ∀ (l : List α) (n : Nat), p ∈ l.enumFrom n → p.2 ∈ l := by
  intro l
  induction l with
  | nil => intro n h; cases h
  | cons a as ih =>
    intro n h
    rcases List.mem_cons.mp h with h | h
    · simp [h]
    · exact List.mem_cons_of_mem _ (ih (n + 1) h)

/-- Confidence of every mutated copy produced by a strategy's
`for img in nearby_images: img['confidence'] = c` loop. -/
theorem conf_of_mem_setterMap {im : IImage} {l : List IImage} {c : Nat} {m : String}
    (h : im ∈ l.map (fun x => { x with confidence := some c, match_method := some m })) :
    im.confidence = some c := by
  obtain ⟨x, -, rfl⟩ := List.mem_map.mp h
  rfl

/-- Artifact-code proximity candidates carry confidence 0.9. -/
theorem conf_byCode {im : IImage} {cl : List CItem} {code : String}
    (h : im ∈ findImagesByArtifactCode cl code) : im.confidence = some 90 := by
  unfold findImagesByArtifactCode at h
  obtain ⟨L, hL, hin⟩ := List.mem_flatten.mp h
  obtain ⟨p, -, rfl⟩ := List.mem_map.mp hL
  split at hin
  · exact conf_of_mem_setterMap hin
  · cases hin

/-- Keyword-proximity candidates carry confidence `0.6 + 0.1 * m` for a
match count `2 ≤ m ≤ 8` (at most seven key fields plus the artifact code). -/
theorem conf_byText {im : IImage} {cl : List CItem} {a : LArtifact}
    (h : im ∈ findImagesByTextContent cl a) :
    ∃ m : Nat, 2 ≤ m ∧ m ≤ 8 ∧ im.confidence = some (60 + m * 10) := by
  have hkw : (extractKeywords a).length ≤ 8 := by
    unfold extractKeywords
    rw [List.length_append]
    have h1 : (linkerKeyFields.filterMap (fun f =>
        match recGetV a.fields f with
        | .vStr s => if s.length > 1 then some s else none
        | _ => none)).length ≤ linkerKeyFields.length :=
      List.length_filterMap_le _ _
    have h2 : linkerKeyFields.length = 7 := by decide
    rw [h2] at h1
    have h3 : (if pyTruthy (recGetD a.fields "artifact_code" (PyVal.vStr "")) = true then
        [pyStr (recGetD a.fields "artifact_code" (PyVal.vStr ""))] else []).length ≤ 1 := by
      split <;> simp
    omega
  unfold findImagesByTextContent at h
  split at h
  · cases h
  · obtain ⟨L, hL, hin⟩ := List.mem_flatten.mp h
    obtain ⟨p, -, rfl⟩ := List.mem_map.mp hL
    split at hin
    · split at hin
      · rename_i hmc
        exact ⟨_, hmc, (List.countP_le_length _).trans hkw, conf_of_mem_setterMap hin⟩
      · cases hin
    · cases hin

/-- Tomb-context candidates carry confidence 0.4. -/
theorem conf_byTomb {im : IImage} {cl : List CItem} {code : String}
    (h : im ∈ findImagesByTomb cl code) : im.confidence = some 40 := by
  unfold findImagesByTomb at h
  split at h
  · cases h
  · obtain ⟨L, hL, hin⟩ := List.mem_flatten.mp h
    obtain ⟨p, -, rfl⟩ := List.mem_map.mp hL
    split at hin
    · exact conf_of_mem_setterMap hin
    · cases hin

/-- Explicit-reference candidates carry confidence 0.95. -/
theorem conf_byRef {im : IImage} {cl : List CItem} {code : String}
    (h : im ∈ findImagesByExplicitReference cl code) : im.confidence = some 95 := by
  unfold findImagesByExplicitReference at h
  split at h
  · cases h
  · obtain ⟨item, -, hitem⟩ := List.mem_filterMap.mp h
    split at hitem
    · split at hitem
      · cases Option.some.inj hitem; rfl
      · cases hitem
    · cases hitem

/-- LLM-reference candidates carry confidence 0.98. -/
theorem conf_byLLM {im : IImage} {cl : List CItem} {a : LArtifact}
    (h : im ∈ findImagesByLLMReferences cl a) : im.confidence = some 98 := by
  unfold findImagesByLLMReferences at h
  split at h
  · cases h
  · split at h
    · cases h
    · obtain ⟨L, hL, hin⟩ := List.mem_flatten.mp h
      obtain ⟨ref, -, rfl⟩ := List.mem_map.mp hL
      split at hin
      · cases hin
      · obtain ⟨item, -, hitem⟩ := List.mem_filterMap.mp hin
        split at hitem
        · split at hitem
          · cases Option.some.inj hitem; rfl
          · cases hitem
        · cases hitem

end ImageLinker

open Pipeline ImageLinker in
/-- C9 (amended): every confidence attached by `link_artifact_to_images`
lies in `[0.4, 1.4]` (in hundredths: `[40, 140]`); it lies in `[0, 1]` for
every strategy except keyword/description proximity, whose score is
`0.6 + 0.1 * match_count` — computed from the match count itself, not the
extra matches — and exceeds `1` exactly when five or more of the at most
eight keywords match. -/
theorem link_confidence_bounds_c9 (cl : List CItem) (a : LArtifact)
    (atype : String) (img : LinkedImage)
    (h : img ∈ link_artifact_to_images cl a atype) :
    confWithinLinkerRange img.confidence := by
  unfold link_artifact_to_images at h
  split at h
  · cases h
  · obtain ⟨p, hp, rfl⟩ := List.mem_map.mp h
    have hmem := snd_mem_of_mem_enumFrom _ 0 hp
    have hsrc := mem_mergeAndDeduplicate hmem
    obtain ⟨L, hL, hpL⟩ := List.mem_flatten.mp hsrc
    simp only [List.mem_cons, List.not_mem_nil, or_false] at hL
    rcases hL with rfl | rfl | rfl | rfl | rfl
    · have hc := conf_byLLM hpL
      simp only [confWithinLinkerRange, hc, Option.getD_some]
      exact ⟨by omega, by omega, Or.inl (by omega)⟩
    · have hc := conf_byRef hpL
      simp only [confWithinLinkerRange, hc, Option.getD_some]
      exact ⟨by omega, by omega, Or.inl (by omega)⟩
    · have hc := conf_byCode hpL
      simp only [confWithinLinkerRange, hc, Option.getD_some]
      exact ⟨by omega, by omega, Or.inl (by omega)⟩
    · obtain ⟨m, hm2, hm8, hconf⟩ := conf_byText hpL
      simp only [confWithinLinkerRange, hconf, Option.getD_some]
      refine ⟨by omega, by omega, ?_⟩
      by_cases hm4 : m ≤ 4
      · exact Or.inl (by omega)
      · exact Or.inr ⟨m, by omega, hm8, rfl⟩
    · have hc := conf_byTomb hpL
      simp only [confWithinLinkerRange, hc, Option.getD_some]
      exact ⟨by omega, by omega, Or.inl (by omega)⟩

open Pipeline ImageLinker in
/-- Witness for C9: the keyword-proximity example with five matched keywords
yields the single linked image below, whose confidence 1.1 (110 hundredths)
satisfies the amended envelope with `m = 5`. -/
theorem link_confidence_bounds_c9_witness :
    confWithinLinkerRange
      (LinkedImage.mk (some "img1") "" "photo" 110 0 (some 1)
        "AA BB CC DD EE").confidence :=
  link_confidence_bounds_c9
    [⟨"text", "AA BB CC DD EE", none, none, none, none, some 1, []⟩,
     ⟨"image", "", some "img1", none, none, none, some 1, []⟩]
    ⟨[("artifact_code", .vStr "M9:7"), ("subtype", .vStr "AA"),
      ("category_level1", .vStr "BB"), ("category_level2", .vStr "CC"),
      ("jade_type", .vStr "DD"), ("clay_type", .vStr "EE")], none⟩
    "jade" _ (by decide)

namespace RangeExpander

open Pipeline

/-- The expansion loop treats records independently. -/
theorem expand_eq_flatten_map (oracle : String → List String) :
    ∀ (l : List Rec),
      expand_artifact_ranges oracle l = (l.map (expandOne oracle)).flatten := by
  intro l
  unfold expand_artifact_ranges
  suffices haux : ∀ (l' : List Rec) (acc : List Rec),
      l'.foldl (fun acc a => acc ++ expandOne oracle a) acc
        = acc ++ (l'.map (expandOne oracle)).flatten by
    simpa using haux l []
  intro l'
  induction l' with
  | nil => intro acc; simp
  | cons a as ih => intro acc; simp [ih, List.append_assoc]

/-- A successful two-part parse means the code contains a `~`. -/
theorem contains_tilde_of_parse {code : String} {r : String × Nat × Nat}
    (hp : parseTildeRange code = some r) : code.data.contains '~' = true := by
  unfold parseTildeRange at hp
  suffices haux : ∀ (l : List Char) a b t,
      splitOnCharList '~' l = a :: b :: t → l.contains '~' = true by
    cases hs : splitOnCharList '~' code.data with
    | nil => rw [hs] at hp; cases hp
    | cons a t =>
      cases t with
      | nil => rw [hs] at hp; cases hp
      | cons b t' =>
        cases t' with
        | nil => exact haux code.data a b [] hs
        | cons c t'' => rw [hs] at hp; cases hp
  intro l
  induction l with
  | nil => intro a b t hs; cases hs
  | cons c rest ih =>
    intro a b t hs
    unfold splitOnCharList at hs
    by_cases hc : (c == '~') = true
    · have hceq : c = '~' := beq_iff_eq.mp hc
      subst hceq
      simp [List.contains_cons]
    · rw [if_neg hc] at hs
      cases hr : splitOnCharList '~' rest with
      | nil =>
        rw [hr] at hs
        cases hs
      | cons h' t' =>
        rw [hr] at hs
        cases t' with
        | nil => simp at hs
        | cons b' t'' =>
          have hmem := ih h' b' t'' hr
          have hmem' : '~' ∈ rest := by simpa using hmem
          simp [List.contains_cons, hmem']

end RangeExpander

open Pipeline RangeExpander in
/-- C8 counterexample: the record with code `M7:5~3` parses as a two-part
range with end `3 ≤ 5` = start, yet range expansion does not keep it
unchanged — the unresolved `~` sends it to the LLM fallback, and with the
fallback returning `["Z9"]` the output holds one rewritten variant and not
the original record. -/
theorem expand_rejected_range_counterexample_c8 :
    parseTildeRange "M7:5~3" = some ("M7:", 5, 3) ∧
    expand_artifact_ranges (fun _ => ["Z9"])
        [[("artifact_code", .vStr "M7:5~3"), ("color", .vStr "红")]]
      = [[("artifact_code", .vStr "Z9"), ("color", .vStr "红")]] ∧
    [("artifact_code", .vStr "M7:5~3"), ("color", .vStr "红")] ∉
      expand_artifact_ranges (fun _ => ["Z9"])
        [[("artifact_code", .vStr "M7:5~3"), ("color", .vStr "红")]] := by
  exact ⟨by decide, by decide, by decide⟩

open Pipeline RangeExpander in
/-- C8 (amended): a record whose code parses as a two-part numeric range
with end ≤ start or span ≥ 100 is never rule-expanded; instead the
unresolved `~` sends the code to the LLM fallback: when the fallback
returns codes the record is replaced by one copy per returned code, and
only when the fallback returns nothing is the original record kept
unchanged, with no expanded variants. -/
theorem expand_rejected_range_defers_to_llm_c8 (oracle : String → List String)
    (pre post : List Rec) (artifact : Rec) (pfx : String) (s e : Nat)
    (hp : parseTildeRange (getCode artifact) = some (pfx, s, e))
    (hrej : e ≤ s ∨ 100 ≤ e - s) :
    expand_artifact_ranges oracle (pre ++ artifact :: post)
      = expand_artifact_ranges oracle pre ++
        (if oracle (getCode artifact) = [] then [artifact]
         else (oracle (getCode artifact)).map (fun c => setCode artifact c)) ++
        expand_artifact_ranges oracle post := by
  have hone : expandOne oracle artifact
      = (if oracle (getCode artifact) = [] then [artifact]
         else (oracle (getCode artifact)).map (fun c => setCode artifact c)) := by
    unfold expandOne
    have htilde := contains_tilde_of_parse hp
    have hrule : ruleExpand artifact (getCode artifact) = none := by
      unfold ruleExpand
      rw [if_pos htilde, hp]
      have hcond : (decide (s < e) && decide (e - s < 100)) = false := by
        rcases hrej with h | h
        · simp [Nat.not_lt.mpr h]
        · have h2 : ¬ (e - s < 100) := by omega
          simp [h2]
      simp [hcond]
    rw [hrule]
    have hcondtrue : (complexIndicators.any
        (fun sep => strContains (getCode artifact) sep) ||
        (getCode artifact).data.contains '~') = true := by
      rw [htilde]; simp
    rw [if_pos hcondtrue]
    cases horacle : oracle (getCode artifact) with
    | nil => simp
    | cons c cs => simp
  rw [expand_eq_flatten_map, expand_eq_flatten_map, expand_eq_flatten_map]
  simp [hone]

open Pipeline RangeExpander in
/-- Witness for C8: with a fallback that returns nothing, the rejected range
`M7:5~3` is kept unchanged. -/
theorem expand_rejected_range_defers_to_llm_c8_witness :
    expand_artifact_ranges (fun _ => ([] : List String))
        ([] ++ [("artifact_code", Pipeline.PyVal.vStr "M7:5~3")] :: [])
      = expand_artifact_ranges (fun _ => ([] : List String)) [] ++
        (if (fun _ => ([] : List String))
              (getCode [("artifact_code", Pipeline.PyVal.vStr "M7:5~3")]) = [] then
           [[("artifact_code", Pipeline.PyVal.vStr "M7:5~3")]]
         else ((fun _ => ([] : List String))
                 (getCode [("artifact_code", Pipeline.PyVal.vStr "M7:5~3")])).map
                (fun c => setCode [("artifact_code", Pipeline.PyVal.vStr "M7:5~3")] c)) ++
        expand_artifact_ranges (fun _ => ([] : List String)) [] :=
  expand_rejected_range_defers_to_llm_c8 (fun _ => []) [] []
    [("artifact_code", Pipeline.PyVal.vStr "M7:5~3")] "M7:" 5 3
    (by decide) (Or.inl (by decide))

open Pipeline TextSplitter in
/-- C6 counterexample: with chunk size 10 and overlap 3 on
`"abcdefg\nhijklmnopqr"`, the first cut is a clean newline cut (the newline
at index 7 lies in the search window `[7, 10)`, so the cut boundary is 8),
yet the second chunk starts at `max(1, 8 - 3) = 5`, not at the boundary 8:
its first three characters `"fg\n"` repeat the first chunk's last three. -/
theorem split_overlap_after_newline_counterexample_c6 :
    split_large_text "abcdefg\nhijklmnopqr".data 10 3
      = ["abcdefg\n".data, "fg\nhijklmn".data, "lmnopqr".data] ∧
    rfindChar "abcdefg\nhijklmnopqr".data '\n' 7 10 = some 7 ∧
    chunkCutEnd "abcdefg\nhijklmnopqr".data 10 3 0 = 8 ∧
    "fg\nhijklmn".data.take 3 = "fg\n".data ∧
    "abcdefg\n".data.drop 5 = "fg\n".data := by
  exact ⟨by decide, by decide, by decide, by decide, by decide⟩

open Pipeline TextSplitter in
/-- C6 (amended): overlap is retained after every cut, clean or hard.
Whenever a chunk is cut at `e` (newline, period, or hard cut alike) and the
cut lies at least `overlap + 1` characters past the chunk start, the next
chunk starts at `e - overlap` — not at the cut boundary — and the emitted
chunk's last `overlap` characters are exactly the text the next chunk
re-reads. -/
theorem split_overlap_retained_after_cut_c6 (text : List Char)
    (chunkSize overlap fuel start e : Nat)
    (hfits : start + chunkSize < text.length)
    (hcut : chunkCutEnd text chunkSize overlap start = e)
    (hroom : start + 1 + overlap ≤ e) :
    splitGo text chunkSize overlap (fuel + 1) start
      = (text.drop start).take (e - start) ::
        splitGo text chunkSize overlap fuel (e - overlap) ∧
    ((text.drop start).take (e - start)).drop (e - overlap - start)
      = (text.drop (e - overlap)).take overlap := by
  constructor
  · conv_lhs => rw [splitGo]
    rw [if_neg (by omega), if_neg (by omega), hcut]
    have hmax : max (start + 1) (e - overlap) = e - overlap := by omega
    rw [hmax]
  · rw [List.drop_take, List.drop_drop]
    have h1 : start + (e - overlap - start) = e - overlap := by omega
    have h2 : e - start - (e - overlap - start) = overlap := by omega
    rw [h1, h2]

open Pipeline TextSplitter in
/-- Witness for C6: the clean newline cut of the counterexample input,
where the chunk from 0 is cut at 8 and the next chunk starts at 5. -/
theorem split_overlap_retained_after_cut_c6_witness :
    splitGo "abcdefg\nhijklmnopqr".data 10 3 (18 + 1) 0
      = ("abcdefg\nhijklmnopqr".data.drop 0).take (8 - 0) ::
        splitGo "abcdefg\nhijklmnopqr".data 10 3 18 (8 - 3) ∧
    (("abcdefg\nhijklmnopqr".data.drop 0).take (8 - 0)).drop (8 - 3 - 0)
      = ("abcdefg\nhijklmnopqr".data.drop (8 - 3)).take 3 :=
  split_overlap_retained_after_cut_c6 "abcdefg\nhijklmnopqr".data 10 3 18 0 8
    (by decide) (by decide) (by decide)


namespace ContentExtractor

open Pipeline

/-- Erasing whitespace distributes over concatenation. -/
theorem eraseWs_append (a b : List Char) :
    eraseWs (a ++ b) = eraseWs a ++ eraseWs b := by
  simp [eraseWs, List.filter_append]

/-- Dropping leading whitespace does not change the non-whitespace content. -/
theorem eraseWs_dropWhile (l : List Char) :
    eraseWs (l.dropWhile isWsChar) = eraseWs l := by
  induction l with
  | nil => rfl
  | cons c rest ih =>
    by_cases hc : isWsChar c = true
    · rw [List.dropWhile_cons_of_pos hc]
      rw [ih]
      simp [eraseWs, hc]
    · rw [List.dropWhile_cons_of_neg hc]

/-- Erasing whitespace commutes with reversal. -/
theorem eraseWs_reverse (l : List Char) :
    eraseWs l.reverse = (eraseWs l).reverse := by
  simp [eraseWs, List.filter_reverse]

/-- Stripping only removes whitespace, so the erased content is unchanged. -/
theorem eraseWs_stripChars (l : List Char) :
    eraseWs (stripChars l) = eraseWs l := by
  unfold stripChars
  rw [eraseWs_reverse, eraseWs_dropWhile, eraseWs_reverse, List.reverse_reverse,
    eraseWs_dropWhile]

/-- A newline contributes nothing to the erased content. -/
theorem eraseWs_newline_cons (l : List Char) :
    eraseWs ('\n' :: l) = eraseWs l := by
  simp [eraseWs, isWsChar]

/-- Appending one line to the joined buffer appends its erased content (the
inserted newline is whitespace). -/
theorem eraseWs_intercalateNl_snoc (content : List (List Char)) (l : List Char) :
    eraseWs (intercalateNl (content ++ [l]))
      = eraseWs (intercalateNl content) ++ eraseWs l := by
  induction content with
  | nil => simp [intercalateNl, eraseWs]
  | cons c cs ih =>
    cases cs with
    | nil =>
      show eraseWs (c ++ '\n' :: intercalateNl [l]) = eraseWs c ++ eraseWs l
      rw [eraseWs_append, eraseWs_newline_cons]
      rfl
    | cons c2 cs2 =>
      show eraseWs (c ++ '\n' :: intercalateNl ((c2 :: cs2) ++ [l]))
        = eraseWs (c ++ '\n' :: intercalateNl (c2 :: cs2)) ++ eraseWs l
      rw [eraseWs_append, eraseWs_append, eraseWs_newline_cons, eraseWs_newline_cons,
        ih, List.append_assoc]

/-- Assigning a fresh key appends the binding at the end. -/
theorem upsert_fresh {res : List (String × String)} {k : String} (v : String)
    (hk : k ∉ res.map Prod.fst) : upsert res k v = res ++ [(k, v)] := by
  induction res with
  | nil => rfl
  | cons kv rest ih =>
    have hk1 : ¬ (kv.1 = k) := by
      intro he
      exact hk (by simp [he])
    have hk2 : k ∉ rest.map Prod.fst := by
      intro hmem
      exact hk (by simp; right; simpa using hmem)
    unfold upsert
    rw [if_neg (by simpa using hk1), ih hk2]
    rfl

/-- Concatenated segment text of an extended association list. -/
theorem segConcatChars_snoc (res : List (String × String)) (k v : String) :
    segConcatChars (res ++ [(k, v)]) = segConcatChars res ++ v.data := by
  simp [segConcatChars]

/-- Invariant of the segmentation loop: with pairwise-fresh names, the
non-whitespace content of all saved segments is the already-saved content,
plus the open buffer, plus the remaining body lines. -/
theorem splitLoop_inv :
    ∀ (ls : List (List Char)) (cur : Option String) (content : List (List Char))
      (res : List (String × String)),
      (∀ k ∈ res.map Prod.fst, k ∉ headingNames ls ∧ cur ≠ some k) →
      (headingNames ls).Nodup →
      (∀ k, cur = some k → k ∉ headingNames ls) →
      (cur = none → content = []) →
      eraseWs (segConcatChars (splitLoop ls cur content res))
        = eraseWs (segConcatChars res) ++
          (match cur with
           | some _ => eraseWs (intercalateNl content) ++ eraseWs (tailBody ls true)
           | none => eraseWs (tailBody ls false)) := by
  intro ls
  induction ls with
  | nil =>
    intro cur content res hfresh _ _ _
    cases cur with
    | none => simp [splitLoop, tailBody, eraseWs]
    | some t =>
      by_cases hc : content.isEmpty = true
      · have hcempty : content = [] := by simpa using hc
        subst hcempty
        simp [splitLoop, tailBody, intercalateNl, eraseWs]
      · have ht : t ∉ res.map Prod.fst := by
          intro hmem
          exact (hfresh t hmem).2 rfl
        simp only [splitLoop, if_neg hc]
        rw [upsert_fresh _ ht, segConcatChars_snoc, eraseWs_append, eraseWs_stripChars]
        simp [tailBody, eraseWs]
  | cons line rest ih =>
    intro cur content res hfresh hnodup hcur hcontent
    cases hl : headingName line with
    | some name =>
      have hnames : headingNames (line :: rest) = name :: headingNames rest := by
        simp [headingNames, hl]
      rw [hnames] at hfresh hnodup hcur
      have htail : tailBody (line :: rest) true = tailBody rest true := by
        simp [tailBody, hl]
      have htail0 : tailBody (line :: rest) false = tailBody rest true := by
        simp [tailBody, hl]
      cases cur with
      | some t =>
        have ht : t ∉ res.map Prod.fst := by
          intro hmem
          exact (hfresh t hmem).2 rfl
        simp only [splitLoop, hl]
        rw [upsert_fresh _ ht]
        rw [ih (some name) []
          (res ++ [(t, String.mk (stripChars (intercalateNl content)))])
          (by
            intro k hk
            simp only [List.map_append, List.mem_append] at hk
            rcases hk with hk | hk
            · constructor
              · exact fun hmem => (hfresh k hk).1 (List.mem_cons_of_mem name hmem)
              · intro hkname
                have hnk : name = k := Option.some.inj hkname
                exact (hfresh k hk).1 (by rw [← hnk]; exact List.mem_cons_self name _)
            · have hkt : k = t := by simpa using hk
              have hnot := hcur t rfl
              constructor
              · intro hmem
                rw [hkt] at hmem
                exact hnot (List.mem_cons_of_mem name hmem)
              · intro hkname
                have hnt : name = t := (Option.some.inj hkname).trans hkt
                exact hnot (by rw [← hnt]; exact List.mem_cons_self name _)
          )
          (List.Nodup.of_cons hnodup)
          (by
            intro k hk
            have hnk : name = k := Option.some.inj hk
            rw [← hnk]
            exact (List.nodup_cons.mp hnodup).1
          )
          (by intro hnone; cases hnone)]
        rw [segConcatChars_snoc, eraseWs_append, eraseWs_stripChars, htail]
        simp [intercalateNl, eraseWs, List.append_assoc]
      | none =>
        have hc0 : content = [] := hcontent rfl
        subst hc0
        simp only [splitLoop, hl]
        rw [ih (some name) [] res
          (by
            intro k hk
            constructor
            · exact fun hmem => (hfresh k hk).1 (List.mem_cons_of_mem name hmem)
            · intro hkname
              have hnk : name = k := Option.some.inj hkname
              exact (hfresh k hk).1 (by rw [← hnk]; exact List.mem_cons_self name _)
          )
          (List.Nodup.of_cons hnodup)
          (by
            intro k hk
            have hnk : name = k := Option.some.inj hk
            rw [← hnk]
            exact (List.nodup_cons.mp hnodup).1
          )
          (by intro hnone; cases hnone)]
        rw [htail0]
        simp [intercalateNl, eraseWs]
    | none =>
      have hnames : headingNames (line :: rest) = headingNames rest := by
        simp [headingNames, hl]
      rw [hnames] at hfresh hnodup hcur
      cases cur with
      | some t =>
        have htail : tailBody (line :: rest) true = line ++ tailBody rest true := by
          simp [tailBody, hl]
        simp only [splitLoop, hl]
        rw [ih (some t) (content ++ [line]) res
          (by intro k hk; exact hfresh k hk)
          hnodup hcur (by intro hnone; cases hnone)]
        rw [eraseWs_intercalateNl_snoc, htail, eraseWs_append]
        simp [List.append_assoc]
      | none =>
        have htail : tailBody (line :: rest) false = tailBody rest false := by
          simp [tailBody, hl]
        simp only [splitLoop, hl]
        rw [ih none content res (by intro k hk; exact hfresh k hk) hnodup
          (by intro k hk; cases hk) hcontent]
        rw [htail]

end ContentExtractor

open Pipeline ContentExtractor in
/-- C5 counterexample: for the two-heading report below (whose first line is
already a recognized heading, so the pre-heading preamble is empty),
concatenating the segment texts in order loses the heading lines
themselves, characters that are not whitespace — even after erasing every
whitespace character the concatenation differs from the original text, so
no "up to whitespace around boundaries" reading can hold. -/
theorem segment_concat_counterexample_c5 :
    split_by_tomb "# 一号墓\nabc\n# 二号墓\ndef"
      = [("一号墓", "abc"), ("二号墓", "def")] ∧
    headingName "# 一号墓".data = some "一号墓" ∧
    eraseWs (segConcatChars (split_by_tomb "# 一号墓\nabc\n# 二号墓\ndef"))
      ≠ eraseWs "# 一号墓\nabc\n# 二号墓\ndef".data := by
  exact ⟨by decide, by decide, by decide⟩

open Pipeline ContentExtractor in
/-- C5 (amended): for every report text whose recognized headings normalize
to pairwise-distinct tomb names, concatenating the segment texts returned
by the segmenter in order of appearance reproduces, up to whitespace, the
original text minus the pre-heading preamble and minus the heading lines
themselves (`tailBody` is exactly the non-heading lines at or after the
first heading). When two headings normalize to the same name the later
segment silently overwrites the earlier one, which is why distinctness is
required. -/
theorem split_by_tomb_concat_c5 (t : String)
    (hnodup : (headingNames (splitOnCharList '\n' t.data)).Nodup) :
    eraseWs (segConcatChars (split_by_tomb t))
      = eraseWs (tailBody (splitOnCharList '\n' t.data) false) := by
  unfold split_by_tomb
  rw [splitLoop_inv (splitOnCharList '\n' t.data) none [] []
    (by intro k hk; cases hk) hnodup (by intro k hk; cases hk) (fun _ => rfl)]
  simp [segConcatChars, eraseWs]

open Pipeline ContentExtractor in
/-- Witness for C5: a report with a preamble line and two distinct headings;
the concatenated segment texts match the body lines up to whitespace. -/
theorem split_by_tomb_concat_c5_witness :
    eraseWs (segConcatChars (split_by_tomb "pre\n# 一号墓\nabc\n# M2\ndef"))
      = eraseWs (tailBody (splitOnCharList '\n' "pre\n# 一号墓\nabc\n# M2\ndef".data) false) :=
  split_by_tomb_concat_c5 "pre\n# 一号墓\nabc\n# M2\ndef" (by decide)

open Pipeline ResponseNormalizer WorkflowChunk in
/-- C2 (counterexample): on the empty-string response every JSON-recovery
strategy fails and the chunk logs the extraction error and continues, but
the recovery write in `_extract_artifacts` is guarded by
`if 'response' in locals() and response:`, and the empty string is falsy —
no recovery entry containing the raw response is produced, so this failing
response is silently discarded in contradiction with the claim. -/
theorem recovery_skipped_for_empty_response_counterexample_c2 :
    (extract_chunk_step "t1" "pottery" "M1" 0 "").raised = false ∧
    (extract_chunk_step "t1" "pottery" "M1" 0 "").errorLogs =
      ["M1 (片段1) 抽取失败: 无法从响应中提取有效的JSON。未找到 [ 或 \x7b。"] ∧
    (extract_chunk_step "t1" "pottery" "M1" 0 "").recovery = [] := by
  refine ⟨rfl, rfl, rfl⟩

open Pipeline ResponseNormalizer WorkflowChunk in
/-- C2 (amended): for every raw response on which all recovery strategies
of `extract_json_from_response` fail, the chunk never re-raises (the
exception stops at the per-chunk `except` and the loop continues), the
failure is logged, and — provided the response text is non-empty — exactly
one recovery entry is written containing the raw response together with
the task id, artifact type, context name and error message.  The empty
response is the sole exception: it is skipped by the truthiness guard and
no recovery entry is written. -/
theorem parse_failure_recovery_c2 (taskId atype tombName : String)
    (chunkIdx : Nat) (response e : String)
    (he : extract_json_from_response response = .error e)
    (hne : response ≠ "") :
    (extract_chunk_step taskId atype tombName chunkIdx response).raised = false ∧
    (extract_chunk_step taskId atype tombName chunkIdx response).errorLogs =
      [tombName ++ " (片段" ++ toString (chunkIdx + 1) ++ ") 抽取失败: " ++ e] ∧
    (extract_chunk_step taskId atype tombName chunkIdx response).recovery =
      [⟨taskId, atype, tombName, e, response⟩] := by
  unfold extract_chunk_step
  rw [he]
  refine ⟨rfl, rfl, ?_⟩
  show (if response ≠ "" then
      [(⟨taskId, atype, tombName, e, response⟩ : RecoveryEntry)] else []) = _
  rw [if_pos hne]

open Pipeline ResponseNormalizer WorkflowChunk in
/-- Witness for C2: the response `hello` has no code fence and no bracket,
so every strategy fails with the no-bracket message; being non-empty, it
is written to the recovery log in full. -/
theorem parse_failure_recovery_c2_witness :
    (extract_chunk_step "t1" "pottery" "M1" 0 "hello").recovery =
      [⟨"t1", "pottery", "M1",
        "无法从响应中提取有效的JSON。未找到 [ 或 \x7b。", "hello"⟩] :=
  (parse_failure_recovery_c2 "t1" "pottery" "M1" 0 "hello"
    "无法从响应中提取有效的JSON。未找到 [ 或 \x7b。" (by rfl) (by decide)).2.2

open ExtractionWorkflowModel in
/-- A checkpoint entered in status `aborted` logs the WARNING and raises
the generic cancellation exception, carrying the logged state. -/
theorem runPhases_aborted (s : Step) (rest : List Step) (db : TaskDB)
    (h : db.status = "aborted") :
    runPhases (s :: rest) db =
      .error ("任务已由用户手动中止",
        add_log "WARNING" "检测到中止信号，正在停止任务..." db) := by
  simp [runPhases, check_cancellation, h]

open ExtractionWorkflowModel in
/-- C1 (code_bug): whenever the checkpointed phase loop terminates through
a cancellation checkpoint — i.e. some `_check_cancellation` observed the
externally-set `aborted` status and raised `Exception("任务已由用户手动中止")`
— the top-level `except` of `execute_full_extraction` treats it like any
other failure: the task terminates in status `failed` (not `aborted`), an
ERROR log `抽取失败: 任务已由用户手动中止` is written (so the cancellation
is logged as ERROR, not only as WARNING), and the exception is re-raised.
This contradicts the claimed behaviour of a distinct non-error `aborted`
terminal state. -/
theorem abort_checkpoint_marks_failed_c1 (steps : List Step) (tb : String)
    (db0 dbw : TaskDB)
    (h : runPhases steps
        (update_task_status "running" (add_log "INFO" "开始抽取流程" db0)) =
      .error ("任务已由用户手动中止", dbw)) :
    (execute_full_extraction steps tb db0).db.status = "failed" ∧
    ("ERROR", "抽取失败: 任务已由用户手动中止")
      ∈ (execute_full_extraction steps tb db0).db.logs ∧
    (execute_full_extraction steps tb db0).raised = some "任务已由用户手动中止" := by
  unfold execute_full_extraction
  rw [h]
  refine ⟨rfl, ?_, rfl⟩
  simp only [add_log, update_task_status, List.mem_append, List.mem_singleton]
  exact Or.inl (Or.inr rfl)

open ExtractionWorkflowModel in
/-- Witness for C1: a run whose first phase is the external GUI abort
(writing status `aborted` through the shared database, as
`gui/db_helper.py` does) followed by one more phase; the checkpoint before
the second phase observes the abort, and the task ends `failed` with the
cancellation logged as ERROR and the exception re-raised. -/
theorem abort_checkpoint_marks_failed_c1_witness :
    (execute_full_extraction
        [fun db => .ok (update_task_status "aborted" db), fun db => .ok db]
        "Traceback" ⟨"pending", []⟩).db.status = "failed" ∧
    ("ERROR", "抽取失败: 任务已由用户手动中止")
      ∈ (execute_full_extraction
        [fun db => .ok (update_task_status "aborted" db), fun db => .ok db]
        "Traceback" ⟨"pending", []⟩).db.logs ∧
    (execute_full_extraction
        [fun db => .ok (update_task_status "aborted" db), fun db => .ok db]
        "Traceback" ⟨"pending", []⟩).raised = some "任务已由用户手动中止" :=
  abort_checkpoint_marks_failed_c1
    [fun db => .ok (update_task_status "aborted" db), fun db => .ok db]
    "Traceback" ⟨"pending", []⟩
    ⟨"aborted", [("INFO", "开始抽取流程"),
      ("WARNING", "检测到中止信号，正在停止任务...")]⟩ (by rfl)
